import Mathlib

/-!
Verification of the pathfinding and evacuation-simulation core of the
Building-Evacuation-System repository (web prototype,
`src/app/services/pathfinding.service.ts` and
`src/app/services/building.service.ts`).

The TypeScript services are shallowly embedded: JavaScript numbers used as
grid coordinates become `Int`, array indices and counters become `Nat`,
floating-point costs are idealized as exact values of the form `q + r * sqrt n`
with `q r : Rat` and `n : Nat` (the source computes `Math.sqrt` of an integer
radicand and adds rationals to it; comparisons are embedded exactly),
`Math.random()` draws become explicit choice streams threaded through the
randomized algorithms, and a JavaScript `throw` or `undefined`-dereference
becomes an `Except` error value.
-/

namespace Evac

/-- Cell kinds, from the `CellType` enum of `pathfinding.service.ts`. -/
inductive CellType where
  | WALKABLE
  | WALL
  | FIRE
  | STAIRS
  | EXIT
deriving DecidableEq, Repr

/-- `Position` interface: an integer triple `(x, y, floor)`. -/
structure Position where
  x : Int
  y : Int
  floor : Int
deriving DecidableEq, Repr

/-- The 3-dimensional occupancy grid `number[][][]`, indexed `[x][y][floor]`.
The source reads its dimensions from `buildingMap.length`,
`buildingMap[0].length` and `buildingMap[0][0].length`; the generated maps are
rectangular, so the dimensions are carried as fields and the cells as a total
function (values outside the bounds are irrelevant junk). -/
structure Grid where
  width : Nat
  height : Nat
  floors : Nat
  cell : Int → Int → Int → CellType

/-- Cell lookup at a `Position`. -/
def Grid.cellAt (g : Grid) (p : Position) : CellType :=
  g.cell p.x p.y p.floor

/-- `isValidMapPosition` of `pathfinding.service.ts`: bounds check only. -/
def isValidMapPosition (x y floor : Int) (g : Grid) : Bool :=
  decide (0 ≤ x) && decide (x < (g.width : Int)) &&
  decide (0 ≤ y) && decide (y < (g.height : Int)) &&
  decide (0 ≤ floor) && decide (floor < (g.floors : Int))

/-- Bounds check at a `Position`. -/
def inBoundsPos (g : Grid) (p : Position) : Bool :=
  isValidMapPosition p.x p.y p.floor g

/-- `isValidPosition` of `pathfinding.service.ts`: in bounds and the cell is
WALKABLE, STAIRS or EXIT (FIRE and WALL are explicitly excluded). -/
def isValidPosition (x y floor : Int) (g : Grid) : Bool :=
  if !isValidMapPosition x y floor g then false
  else
    let cellType := g.cell x y floor
    cellType = CellType.WALKABLE || cellType = CellType.STAIRS ||
    cellType = CellType.EXIT

/-- The 8 same-floor direction offsets, in source order. -/
def directions : List (Int × Int) :=
  [(-1, -1), (-1, 0), (-1, 1),
   (0, -1), (0, 1),
   (1, -1), (1, 0), (1, 1)]

/-- `getNeighbors` of `pathfinding.service.ts`: the 8-directional same-floor
neighbors passing `isValidPosition`, plus stair transitions to `floor - 1` and
`floor + 1` when the current cell and the target cell are both STAIRS. -/
def getNeighbors (position : Position) (g : Grid) : List Position :=
  (directions.filterMap (fun d =>
    let newX := position.x + d.1
    let newY := position.y + d.2
    if isValidPosition newX newY position.floor g then
      some ⟨newX, newY, position.floor⟩
    else none)) ++
  (if g.cell position.x position.y position.floor = CellType.STAIRS then
    [position.floor - 1, position.floor + 1].filterMap (fun newFloor =>
      if 0 ≤ newFloor ∧ newFloor < (g.floors : Int) ∧
          g.cell position.x position.y newFloor = CellType.STAIRS then
        some ⟨position.x, position.y, newFloor⟩
      else none)
  else [])

/-- `positionsEqual` of the source is component-wise equality, which the
`DecidableEq` instance of `Position` captures. -/
def positionsEqual (p1 p2 : Position) : Bool :=
  decide (p1.x = p2.x) && decide (p1.y = p2.y) && decide (p1.floor = p2.floor)

/-- The cell kinds a path may step on. -/
def traversableKinds : List CellType :=
  [CellType.WALKABLE, CellType.STAIRS, CellType.EXIT]

/-! ## Cost values

The source computes costs with JavaScript floating point.  Every cost value it
forms is `q + r * Math.sqrt n` for rationals `q`, `r` and a natural radicand
`n` (movement costs are the literals `1.0`, `1.414`, `+5.0`; heuristics are
square roots of integer radicands; weights are rational).  We embed those
values exactly as the triple `(q, r, n)` and decide comparisons by sign
analysis and squaring, idealizing away float rounding. -/

/-- The exact value `q + r * sqrt n`. -/
structure SqrtVal where
  q : Rat
  r : Rat
  n : Nat
deriving DecidableEq, Repr

/-- Sign (as -1, 0 or 1) of the real number `x + y * sqrt n`. -/
def signQSqrt (x y : Rat) (n : Nat) : Int :=
  let s : Rat := y * y * (n : Rat)
  if 0 ≤ y then
    if 0 ≤ x then (if x = 0 ∧ s = 0 then 0 else 1)
    else if x * x < s then 1 else if x * x = s then 0 else -1
  else
    if x ≤ 0 then (if x = 0 ∧ s = 0 then 0 else -1)
    else if s < x * x then 1 else if s = x * x then 0 else -1

/-- Sign of the real number `b - a` for two `SqrtVal`s
`a = a.q + a.r * sqrt a.n` and `b = b.q + b.r * sqrt b.n`: the difference is
`(b.q - a.q) + b.r * sqrt b.n - a.r * sqrt a.n`, settled by comparing the two
sides and squaring where both are nonzero with equal signs. -/
def signSqrtDiff (a b : SqrtVal) : Int :=
  let c := b.q - a.q
  let sL := signQSqrt c b.r b.n
  let sR : Int := if a.r = 0 ∨ a.n = 0 then 0 else if 0 < a.r then 1 else -1
  if sR = 0 then sL
  else if sL ≠ sR then (if sR < sL then 1 else -1)
  else
    let d := c * c + b.r * b.r * (b.n : Rat) - a.r * a.r * (a.n : Rat)
    let s2 := signQSqrt d (2 * c * b.r) b.n
    if sL = 1 then s2 else -s2

/-- `a < b` on cost values: the JavaScript comparator `a.fCost - b.fCost`
sorts ascending, i.e. `a` before `b` exactly when `a.fCost < b.fCost`. -/
def SqrtVal.ltb (a b : SqrtVal) : Bool :=
  signSqrtDiff a b = 1

/-- Add a rational to a cost value (used for `gCost + hCost`). -/
def SqrtVal.addRat (h : SqrtVal) (g : Rat) : SqrtVal :=
  ⟨h.q + g, h.r, h.n⟩

/-- Scale a cost value by a rational weight (used for `hCost * weight`). -/
def SqrtVal.scale (h : SqrtVal) (w : Rat) : SqrtVal :=
  ⟨h.q * w, h.r * w, h.n⟩

/-- `calculateHeuristic`: 3-D Euclidean distance with the floor difference
scaled by 10 before squaring, `sqrt (dx^2 + dy^2 + (10*dfloor)^2)`. -/
def calculateHeuristic (pos1 pos2 : Position) : SqrtVal :=
  let dx := pos2.x - pos1.x
  let dy := pos2.y - pos1.y
  let dz := (pos2.floor - pos1.floor) * 10
  ⟨0, 1, (dx * dx + dy * dy + dz * dz).toNat⟩

/-- `getMovementCost`: base 1.0, the literal 1.414 for diagonal moves, and a
flat +5.0 for a floor change. -/
def getMovementCost (pos1 pos2 : Position) : Rat :=
  let dx := (pos2.x - pos1.x).natAbs
  let dy := (pos2.y - pos1.y).natAbs
  let dz := (pos2.floor - pos1.floor).natAbs
  let cost : Rat := if dx + dy = 2 then 1414 / 1000 else 1
  if 0 < dz then cost + 5 else cost

/-- `PathNode`: search node with an optional parent reference; the parentless
case is the start node. -/
inductive PathNode where
  | root (position : Position) (gCost : Rat) (hCost : SqrtVal) (fCost : SqrtVal)
  | node (position : Position) (parent : PathNode) (gCost : Rat)
      (hCost : SqrtVal) (fCost : SqrtVal)

def PathNode.position : PathNode → Position
  | .root p _ _ _ => p
  | .node p _ _ _ _ => p

def PathNode.gCost : PathNode → Rat
  | .root _ gc _ _ => gc
  | .node _ _ gc _ _ => gc

def PathNode.hCost : PathNode → SqrtVal
  | .root _ _ hc _ => hc
  | .node _ _ _ hc _ => hc

def PathNode.fCost : PathNode → SqrtVal
  | .root _ _ _ fc => fc
  | .node _ _ _ _ fc => fc

/-- `reconstructPath`: walk parent references back to the start, producing the
start-to-goal order (the source unshifts onto the front of an array). -/
def reconstructPath : PathNode → List Position
  | .root p _ _ _ => [p]
  | .node p parent _ _ _ => reconstructPath parent ++ [p]

/-- Comparator order for the open set: ascending `fCost`. -/
def nodeLt (a b : PathNode) : Bool :=
  SqrtVal.ltb a.fCost b.fCost

/-- Stable insertion into an ascending list: a new element goes after every
element strictly below it and before the first element not below it, matching
the stability of `Array.prototype.sort`. -/
def insertStable {α : Type} (lt : α → α → Bool) (x : α) : List α → List α
  | [] => [x]
  | y :: l => if lt y x then y :: insertStable lt x l else x :: y :: l

/-- Stable sort by a strict comparator (models the stable JavaScript
`Array.prototype.sort` with comparator `(a, b) => key a - key b`). -/
def sortStable {α : Type} (lt : α → α → Bool) : List α → List α
  | [] => []
  | x :: l => insertStable lt x (sortStable lt l)

/-- Replace the open-set node at `pos` in place: the source mutates
`existingNode.parent`, `existingNode.gCost` and `existingNode.fCost`, keeping
its `hCost` and its slot in the array. -/
def updateNode : List PathNode → Position → PathNode → Rat → SqrtVal →
    List PathNode
  | [], _, _, _, _ => []
  | nd :: l, pos, par, gc, fc =>
    if nd.position = pos then PathNode.node pos par gc nd.hCost fc :: l
    else nd :: updateNode l pos par gc fc

/-- Iteration bound for the A*-family loops: each iteration closes a fresh
position, and open-set positions are in bounds (or the start), so the number
of iterations never exceeds the cell count plus one; the fuel is one more. -/
def aStarFuel (g : Grid) : Nat :=
  g.width * g.height * g.floors + 2

/-- One `while` loop of `findPathAStar`: sort the open set by `fCost`, shift
the front node, test the goal, close it, and relax its neighbors. -/
def findPathAStarAux (goal : Position) (g : Grid) :
    Nat → List PathNode → List Position → Option (List Position)
  | 0, _, _ => none
  | fuel + 1, openSet, closedSet =>
    match sortStable nodeLt openSet with
    | [] => none
    | currentNode :: rest =>
      if currentNode.position = goal then some (reconstructPath currentNode)
      else
        let closedSet2 := currentNode.position :: closedSet
        let openSet2 := (getNeighbors currentNode.position g).foldl
          (fun acc neighborPos =>
            if neighborPos ∈ closedSet2 then acc
            else
              let gCost := currentNode.gCost +
                getMovementCost currentNode.position neighborPos
              let hCost := calculateHeuristic neighborPos goal
              let fCost := hCost.addRat gCost
              match acc.find? (fun node => node.position = neighborPos) with
              | none =>
                acc ++ [PathNode.node neighborPos currentNode gCost hCost fCost]
              | some existingNode =>
                if gCost < existingNode.gCost then
                  updateNode acc neighborPos currentNode gCost fCost
                else acc) rest
        findPathAStarAux goal g fuel openSet2 closedSet2

/-- `findPathAStar(start, goal, buildingMap)`. -/
def findPathAStar (start goal : Position) (g : Grid) : Option (List Position) :=
  let hCost := calculateHeuristic start goal
  let startNode := PathNode.root start 0 hCost (hCost.addRat 0)
  findPathAStarAux goal g (aStarFuel g) [startNode] []

/-- One `while` loop of `findPathAStarWeighted`: as A* but with
`fCost = gCost + hCost * weight`. -/
def findPathAStarWeightedAux (goal : Position) (g : Grid) (weight : Rat) :
    Nat → List PathNode → List Position → Option (List Position)
  | 0, _, _ => none
  | fuel + 1, openSet, closedSet =>
    match sortStable nodeLt openSet with
    | [] => none
    | currentNode :: rest =>
      if currentNode.position = goal then some (reconstructPath currentNode)
      else
        let closedSet2 := currentNode.position :: closedSet
        let openSet2 := (getNeighbors currentNode.position g).foldl
          (fun acc neighborPos =>
            if neighborPos ∈ closedSet2 then acc
            else
              let gCost := currentNode.gCost +
                getMovementCost currentNode.position neighborPos
              let hCost := calculateHeuristic neighborPos goal
              let fCost := (hCost.scale weight).addRat gCost
              match acc.find? (fun node => node.position = neighborPos) with
              | none =>
                acc ++ [PathNode.node neighborPos currentNode gCost hCost fCost]
              | some existingNode =>
                if gCost < existingNode.gCost then
                  updateNode acc neighborPos currentNode gCost fCost
                else acc) rest
        findPathAStarWeightedAux goal g weight fuel openSet2 closedSet2

/-- `findPathAStarWeighted(start, goal, buildingMap, weight)`. -/
def findPathAStarWeighted (start goal : Position) (g : Grid) (weight : Rat) :
    Option (List Position) :=
  let hCost := calculateHeuristic start goal
  let startNode := PathNode.root start 0 hCost ((hCost.scale weight).addRat 0)
  findPathAStarWeightedAux goal g weight (aStarFuel g) [startNode] []

/-- One `while` loop of `findPathGreedyBestFirst`: priority by `hCost` alone,
no relaxation (a neighbor already in the open set is left as is). -/
def findPathGreedyAux (goal : Position) (g : Grid) :
    Nat → List PathNode → List Position → Option (List Position)
  | 0, _, _ => none
  | fuel + 1, openSet, closedSet =>
    match sortStable nodeLt openSet with
    | [] => none
    | currentNode :: rest =>
      if currentNode.position = goal then some (reconstructPath currentNode)
      else
        let closedSet2 := currentNode.position :: closedSet
        let openSet2 := (getNeighbors currentNode.position g).foldl
          (fun acc neighborPos =>
            if neighborPos ∈ closedSet2 then acc
            else
              let hCost := calculateHeuristic neighborPos goal
              if (acc.find? (fun node => node.position = neighborPos)).isSome then
                acc
              else
                acc ++ [PathNode.node neighborPos currentNode 0 hCost hCost])
          rest
        findPathGreedyAux goal g fuel openSet2 closedSet2

/-- `findPathGreedyBestFirst(start, goal, buildingMap)`. -/
def findPathGreedyBestFirst (start goal : Position) (g : Grid) :
    Option (List Position) :=
  let hCost := calculateHeuristic start goal
  let startNode := PathNode.root start 0 hCost hCost
  findPathGreedyAux goal g (aStarFuel g) [startNode] []

/-- The outer loop of `findPathAnytimeAStar`: run Weighted A* with a decaying
weight, keep the last successful path.  The source bounds the loop with a
wall-clock budget (`Date.now() - startTime < timeLimitMs`); the number of
loop entries the clock allows is abstracted as the `rounds` argument, which is
at least 1 whenever `timeLimitMs > 0` because the first check sees an elapsed
time of zero. -/
def anytimeAux (start goal : Position) (g : Grid) :
    Nat → Rat → Option (List Position) → Option (List Position)
  | 0, _, bestPath => bestPath
  | rounds + 1, epsilon, bestPath =>
    let path := findPathAStarWeighted start goal g epsilon
    let bestPath2 := match path with
      | some p => some p
      | none => bestPath
    if epsilon ≤ 1 then bestPath2
    else anytimeAux start goal g rounds (max 1 (epsilon * (8 / 10))) bestPath2

/-- `findPathAnytimeAStar(start, goal, buildingMap, timeLimitMs)` with the
clock abstracted into `rounds`. -/
def findPathAnytimeAStar (rounds : Nat) (start goal : Position) (g : Grid) :
    Option (List Position) :=
  anytimeAux start goal g rounds 2 none

/-- `isPathBlockedByFire`: some position of the path is a FIRE cell. -/
def isPathBlockedByFire (path : List Position) (g : Grid) : Bool :=
  path.any (fun pos => g.cell pos.x pos.y pos.floor = CellType.FIRE)

/-! ## BFS / DFS / Bidirectional -/

/-- Iteration bound for the queue-based searches: at most the cell count plus
one dequeues expand, each enqueueing at most 10 entries (8 horizontal plus 2
stair neighbors), so the queue processes at most `10*(N+1)+1` entries. -/
def bfsFuel (g : Grid) : Nat :=
  10 * (g.width * g.height * g.floors + 1) + 2

/-- The `while` loop of `findPathBFS`: FIFO queue of (position, carried path),
visited-on-dequeue, enqueue unvisited neighbors. -/
def findPathBFSAux (goal : Position) (g : Grid) :
    Nat → List (Position × List Position) → List Position →
    Option (List Position)
  | 0, _, _ => none
  | _ + 1, [], _ => none
  | fuel + 1, (pos, path) :: rest, visited =>
    if pos = goal then some path
    else if pos ∈ visited then findPathBFSAux goal g fuel rest visited
    else
      let visited2 := pos :: visited
      let queueAdd := (getNeighbors pos g).filterMap (fun neighbor =>
        if neighbor ∈ visited2 then none else some (neighbor, path ++ [neighbor]))
      findPathBFSAux goal g fuel (rest ++ queueAdd) visited2

/-- `findPathBFS(start, goal, buildingMap)`. -/
def findPathBFS (start goal : Position) (g : Grid) : Option (List Position) :=
  findPathBFSAux goal g (bfsFuel g) [(start, [start])] []

/-- The `while` loop of `findPathDFS`: LIFO stack (head of the list is the top
of the JavaScript array), visited-on-pop. -/
def findPathDFSAux (goal : Position) (g : Grid) :
    Nat → List (Position × List Position) → List Position →
    Option (List Position)
  | 0, _, _ => none
  | _ + 1, [], _ => none
  | fuel + 1, (pos, path) :: rest, visited =>
    if pos = goal then some path
    else if pos ∈ visited then findPathDFSAux goal g fuel rest visited
    else
      let visited2 := pos :: visited
      let stack2 := (getNeighbors pos g).foldl (fun st neighbor =>
        if neighbor ∈ visited2 then st else (neighbor, path ++ [neighbor]) :: st)
        rest
      findPathDFSAux goal g fuel stack2 visited2

/-- `findPathDFS(start, goal, buildingMap)`. -/
def findPathDFS (start goal : Position) (g : Grid) : Option (List Position) :=
  findPathDFSAux goal g (bfsFuel g) [(start, [start])] []

/-- One side of a bidirectional round: for each neighbor not yet in this
side's visited map, record it and enqueue it, and if the other side has
already visited it, return the spliced result immediately (`mk` builds the
result from the other side's recorded path, exactly as the source splices
`[...pathS, ...pathG.slice(0, -1).reverse()]`). -/
def biExpand (pathPopped : List Position)
    (vOther : List (Position × List Position))
    (mk : List Position → List Position) :
    List Position → List (Position × List Position) →
    List (Position × List Position) × List (Position × List Position) ×
      Option (List Position)
  | [], vMine => (vMine, [], none)
  | n :: ns, vMine =>
    if (vMine.find? (fun e => e.1 = n)).isSome then
      biExpand pathPopped vOther mk ns vMine
    else
      let entry := (n, pathPopped ++ [n])
      let vMine2 := vMine ++ [entry]
      match vOther.find? (fun e => e.1 = n) with
      | some other => (vMine2, [entry], some (mk other.2))
      | none =>
        let r := biExpand pathPopped vOther mk ns vMine2
        (r.1, entry :: r.2.1, r.2.2)

/-- The `while` loop of `findPathBidirectional`: expand one dequeued node from
the start side, then one from the goal side (seeing the start side's updates
from the same round). -/
def findPathBidirectionalAux (g : Grid) :
    Nat → List (Position × List Position) → List (Position × List Position) →
    List (Position × List Position) → List (Position × List Position) →
    Option (List Position)
  | 0, _, _, _, _ => none
  | fuel + 1, qS, qG, vS, vG =>
    match qS, qG with
    | (posS, pathS) :: restS, (posG, pathG) :: restG =>
      let rS := biExpand pathS vG
        (fun other => pathS ++ other.dropLast.reverse) (getNeighbors posS g) vS
      match rS.2.2 with
      | some res => some res
      | none =>
        let rG := biExpand pathG rS.1
          (fun other => other ++ pathG.dropLast.reverse) (getNeighbors posG g) vG
        match rG.2.2 with
        | some res => some res
        | none =>
          findPathBidirectionalAux g fuel (restS ++ rS.2.1) (restG ++ rG.2.1)
            rS.1 rG.1
    | _, _ => none

/-- `findPathBidirectional(start, goal, buildingMap)`. -/
def findPathBidirectional (start goal : Position) (g : Grid) :
    Option (List Position) :=
  findPathBidirectionalAux g (bfsFuel g)
    [(start, [start])] [(goal, [goal])]
    [(start, [start])] [(goal, [goal])]

/-! ## Dijkstra

The source keeps `distances : Map<string, number>` whose stored values are
either `Infinity` or a finite number; we embed a stored value as
`Option Rat` with `none` for `Infinity`.  Both distance reads go through
JavaScript `||` defaulting, under which the stored number `0` is falsy: the
read `distances.get(key) || Infinity` turns the start distance `0` into
`Infinity`, and `distances.get(key) || 0` leaves `0` unchanged. -/

/-- `distances.get(key) || Infinity`: a missing key and the falsy stored `0`
both read as `Infinity`. -/
def readOrInf (distances : List (Position × Option Rat)) (key : Position) :
    Option Rat :=
  match distances.find? (fun e => e.1 = key) with
  | none => none
  | some e =>
    match e.2 with
    | none => none
    | some v => if v = 0 then none else some v

/-- `distances.get(key) || 0`: a missing key reads as `0`. -/
def readOr0 (distances : List (Position × Option Rat)) (key : Position) :
    Option Rat :=
  match distances.find? (fun e => e.1 = key) with
  | none => some 0
  | some e => e.2

/-- Strict `<` on numbers-with-Infinity. -/
def ltInf : Option Rat → Option Rat → Bool
  | some a, some b => a < b
  | some _, none => true
  | none, _ => false

/-- Addition of a finite cost to a number-with-Infinity. -/
def addInf : Option Rat → Rat → Option Rat
  | none, _ => none
  | some a, b => some (a + b)

/-- `Map.set`: overwrite an existing key or append a new binding. -/
def assocSet {β : Type} (m : List (Position × β)) (k : Position) (v : β) :
    List (Position × β) :=
  if m.any (fun e => e.1 = k) then
    m.map (fun e => if e.1 = k then (k, v) else e)
  else m ++ [(k, v)]

/-- The linear scan for the unvisited key of minimum distance; starts from
`minDistance = Infinity` and `currentKey = ""` and takes strictly smaller
distances only. -/
def dijkstraScan (distances : List (Position × Option Rat))
    (unvisited : List Position) : Option Position :=
  (unvisited.foldl (fun acc key =>
    let distance := readOrInf distances key
    if ltInf distance acc.1 then (distance, some key) else acc)
    ((none : Option Rat), (none : Option Position))).2

/-- The loop of `reconstructPathDijkstra`: walk the `previous` map from the
goal back, stopping at the start or at a missing predecessor, then unshift the
start. -/
def reconstructPathDijkstraAux (previous : List (Position × Position))
    (start : Position) : Nat → Position → List Position → List Position
  | 0, _, path => path
  | fuel + 1, current, path =>
    if current = start then path
    else
      let path2 := current :: path
      match previous.find? (fun e => e.1 = current) with
      | none => path2
      | some e => reconstructPathDijkstraAux previous start fuel e.2 path2

/-- `reconstructPathDijkstra(start, goal, previous)`. -/
def reconstructPathDijkstra (start goal : Position)
    (previous : List (Position × Position)) : List Position :=
  start :: reconstructPathDijkstraAux previous start (previous.length + 1) goal []

/-- The `while` loop of `findPathDijkstra`. -/
def findPathDijkstraAux (start goal : Position) (g : Grid) :
    Nat → List (Position × Option Rat) → List (Position × Position) →
    List Position → Option (List Position)
  | 0, _, _, _ => none
  | fuel + 1, distances, previous, unvisited =>
    if unvisited.isEmpty then none
    else
      match dijkstraScan distances unvisited with
      | none => none
      | some currentPos =>
        if currentPos = goal then
          some (reconstructPathDijkstra start goal previous)
        else
          let unvisited2 := unvisited.erase currentPos
          let relaxed := (getNeighbors currentPos g).foldl
            (fun (acc : List (Position × Option Rat) × List (Position × Position))
                neighborPos =>
              if neighborPos ∉ unvisited2 then acc
              else
                let altDistance := addInf (readOr0 acc.1 currentPos)
                  (getMovementCost currentPos neighborPos)
                if ltInf altDistance (readOrInf acc.1 neighborPos) then
                  (assocSet acc.1 neighborPos altDistance,
                   assocSet acc.2 neighborPos currentPos)
                else acc) (distances, previous)
          findPathDijkstraAux start goal g fuel relaxed.1 relaxed.2 unvisited2

/-- The initialization scan of `findPathDijkstra`: every traversable cell, in
x-major iteration order. -/
def dijkstraInitKeys (g : Grid) : List Position :=
  (List.range g.width).flatMap (fun x =>
    (List.range g.height).flatMap (fun y =>
      (List.range g.floors).filterMap (fun floor =>
        if g.cell (x : Int) (y : Int) (floor : Int) ∈ traversableKinds then
          some ⟨(x : Int), (y : Int), (floor : Int)⟩
        else none)))

/-- `findPathDijkstra(start, goal, buildingMap)`. -/
def findPathDijkstra (start goal : Position) (g : Grid) :
    Option (List Position) :=
  let unvisited := dijkstraInitKeys g
  let distances := unvisited.map (fun p => (p, (none : Option Rat)))
  let distances2 := assocSet distances start (some 0)
  findPathDijkstraAux start goal g (unvisited.length + 1) distances2 [] unvisited

/-! ## Randomized algorithms

`Math.random()` is embedded as explicit draw streams indexed by a global draw
counter `c` that each call threads onward: `rho c` abstracts an integer draw
(used as `rho c % len` for `Math.floor(Math.random() * len)`, every value of
which is reachable), and `sigma c` abstracts a threshold draw
(`Math.random() < 0.3`). -/

/-- The `for` loop of `findPathRandomWalk`; returns the result together with
the advanced draw counter. -/
def rwAux (rho : Nat → Nat) (goal : Position) (g : Grid) :
    Nat → Position → List Position → List Position → Nat →
    Option (List Position) × Nat
  | 0, _, _, _, c => (none, c)
  | steps + 1, current, path, visited, c =>
    if current = goal then (some path, c)
    else
      let neighbors := (getNeighbors current g).filter (fun n => n ∉ visited)
      if neighbors.isEmpty then (none, c)
      else
        let next := neighbors.getD (rho c % neighbors.length) current
        rwAux rho goal g steps next (path ++ [next]) (next :: visited) (c + 1)

/-- `findPathRandomWalk(start, goal, buildingMap, maxSteps)` with the draw
counter threaded through. -/
def findPathRandomWalkC (rho : Nat → Nat) (c : Nat) (start goal : Position)
    (g : Grid) (maxSteps : Nat) : Option (List Position) × Nat :=
  rwAux rho goal g maxSteps start [start] [start] c

/-- `findPathRandomWalk` result alone. -/
def findPathRandomWalk (rho : Nat → Nat) (c : Nat) (start goal : Position)
    (g : Grid) (maxSteps : Nat) : Option (List Position) :=
  (findPathRandomWalkC rho c start goal g maxSteps).1

/-- The inner ant loop of `findPathACO`: run random walks, keep the strictly
shortest successful path. -/
def acoAnts (rho : Nat → Nat) (start goal : Position) (g : Grid) :
    Nat → Nat → Option (List Position) → Option (List Position) × Nat
  | 0, c, bestPath => (bestPath, c)
  | ants + 1, c, bestPath =>
    let r := findPathRandomWalkC rho c start goal g 100
    let bestPath2 := match r.1 with
      | some p =>
        if (match bestPath with
            | none => true
            | some b => decide (p.length < b.length))
        then some p else bestPath
      | none => bestPath
    acoAnts rho start goal g ants r.2 bestPath2

/-- The outer iteration loop of `findPathACO`. -/
def acoIters (rho : Nat → Nat) (start goal : Position) (g : Grid)
    (antCount : Nat) :
    Nat → Nat → Option (List Position) → Option (List Position) × Nat
  | 0, c, bestPath => (bestPath, c)
  | iters + 1, c, bestPath =>
    let r := acoAnts rho start goal g antCount c bestPath
    acoIters rho start goal g antCount iters r.2 r.1

/-- `findPathACO(start, goal, buildingMap, iterations, antCount)`. -/
def findPathACO (rho : Nat → Nat) (start goal : Position) (g : Grid)
    (iterations antCount : Nat) : Option (List Position) :=
  (acoIters rho start goal g antCount iterations 0 none).1

/-- JavaScript `arr.slice(-k)` for a natural `k ≤ arr.length`: the last `k`
elements, except that `-0` is `0` and yields the whole array. -/
def jsSliceNeg {α : Type} (l : List α) (k : Nat) : List α :=
  if k = 0 then l else l.drop (l.length - k)

/-- The population seeding loop of `findPathGA`: `populationSize` random
walks, keeping the successful ones in order. -/
def gaSeed (rho : Nat → Nat) (start goal : Position) (g : Grid) :
    Nat → Nat → List (List Position) × Nat
  | 0, c => ([], c)
  | i + 1, c =>
    let r := findPathRandomWalkC rho c start goal g 100
    let rest := gaSeed rho start goal g i r.2
    match r.1 with
    | some p => (p :: rest.1, rest.2)
    | none => rest

/-- One crossover-and-mutation child of `findPathGA`; only called on a
nonempty population (on an empty one the source dereferences `undefined`). -/
def gaChild (rho : Nat → Nat) (sigma : Nat → Bool) (goal : Position) (g : Grid)
    (population : List (List Position)) (c : Nat) : List Position × Nat :=
  let parent1 := population.getD (rho c % population.length) []
  let parent2 := population.getD (rho (c + 1) % population.length) []
  let crossoverPoint := parent1.length / 2
  let child := parent1.take crossoverPoint
  let child2 := if 0 < parent2.length then
      child ++ jsSliceNeg parent2 (parent2.length / 2)
    else child
  if sigma (c + 2) && decide (0 < child2.length) then
    let last := child2.getLast?.getD goal
    let r := findPathRandomWalkC rho (c + 3) last goal g 20
    match r.1 with
    | some w => (child2 ++ w.drop 1, r.2)
    | none => (child2, r.2)
  else (child2, c + 3)

/-- The `while (newPop.length < populationSize)` child loop of `findPathGA`. -/
def gaChildren (rho : Nat → Nat) (sigma : Nat → Bool) (goal : Position)
    (g : Grid) (population : List (List Position)) :
    Nat → Nat → List (List Position) × Nat
  | 0, c => ([], c)
  | k + 1, c =>
    let r := gaChild rho sigma goal g population c
    let rest := gaChildren rho sigma goal g population k r.2
    (r.1 :: rest.1, rest.2)

/-- The generation loop of `findPathGA`.  On an empty population with
`populationSize >= 2` the source evaluates `parent1.length` with
`parent1 = population[0] = undefined` and throws a `TypeError`, embedded as
`Except.error ()`; with `populationSize <= 1` the child loop never runs, the
lone `undefined` seed is never dereferenced and the best path never changes. -/
def gaGens (rho : Nat → Nat) (sigma : Nat → Bool) (goal : Position) (g : Grid)
    (populationSize : Nat) :
    Nat → List (List Position) → Option (List Position) → Nat →
    Except Unit (Option (List Position))
  | 0, _, bestPath, _ => .ok bestPath
  | gens + 1, population, bestPath, c =>
    let sorted := sortStable (fun a b => a.length < b.length) population
    match sorted with
    | [] => if 2 ≤ populationSize then .error () else .ok bestPath
    | p0 :: _ =>
      let bestPath2 :=
        if (match bestPath with
            | none => true
            | some b => decide (p0.length < b.length))
        then some p0 else bestPath
      let r := gaChildren rho sigma goal g sorted (populationSize - 1) c
      gaGens rho sigma goal g populationSize gens (p0 :: r.1) bestPath2 r.2

/-- `findPathGA(start, goal, buildingMap, populationSize, generations)`. -/
def findPathGA (rho : Nat → Nat) (sigma : Nat → Bool) (start goal : Position)
    (g : Grid) (populationSize generations : Nat) :
    Except Unit (Option (List Position)) :=
  let seeded := gaSeed rho start goal g populationSize 0
  gaGens rho sigma goal g populationSize generations seeded.1 none seeded.2

/-- The inner step loop of one swarm agent: step to a uniformly chosen raw
neighbor, stopping after a step that lands on the goal. -/
def swarmWalk (rho : Nat → Nat) (goal : Position) (g : Grid) :
    Nat → Position → List Position → Nat → Position × List Position × Nat
  | 0, agentPos, path, c => (agentPos, path, c)
  | j + 1, agentPos, path, c =>
    let neighbors := getNeighbors agentPos g
    if neighbors.isEmpty then (agentPos, path, c)
    else
      let next := neighbors.getD (rho c % neighbors.length) agentPos
      if next = goal then (next, path ++ [next], c + 1)
      else swarmWalk rho goal g j next (path ++ [next]) (c + 1)

/-- The agent loop of `findPathSwarm`: keep the strictly shortest path among
agents whose final position is the goal. -/
def swarmAgents (rho : Nat → Nat) (start goal : Position) (g : Grid)
    (iterations : Nat) :
    Nat → Nat → Option (List Position) → Option (List Position)
  | 0, _, bestPath => bestPath
  | i + 1, c, bestPath =>
    let r := swarmWalk rho goal g iterations start [start] c
    let bestPath2 :=
      if decide (r.1 = goal) &&
          (match bestPath with
           | none => true
           | some b => decide (r.2.1.length < b.length))
      then some r.2.1 else bestPath
    swarmAgents rho start goal g iterations i r.2.2 bestPath2

/-- `findPathSwarm(start, goal, buildingMap, swarmSize, iterations)`. -/
def findPathSwarm (rho : Nat → Nat) (start goal : Position) (g : Grid)
    (swarmSize iterations : Nat) : Option (List Position) :=
  swarmAgents rho start goal g iterations swarmSize 0 none

/-! ## Building service (`building.service.ts`)

The service state is the building map, the fire-position set, the people array
and the timestep counter.  The `id`/`name` strings built from `Date.now()` and
`Math.random()` are passed in as parameters; the optional `trapped` field is a
`Bool` whose default `false` models the falsy `undefined`. -/

/-- `Person` interface. -/
structure Person where
  id : String
  name : String
  position : Position
  targetPosition : Option Position
  path : List Position
  currentPathIndex : Nat
  isEvacuated : Bool
  movementSpeed : Nat
  trapped : Bool
deriving DecidableEq, Repr

/-- The mutable state of `BuildingService`. -/
structure BState where
  grid : Grid
  firePositions : List Position
  people : List Person
  timestep : Nat

/-- `isValidPosition` of `building.service.ts`: bounds check only (unlike the
function of the same name in the pathfinding service, it does not look at the
cell kind). -/
def bsIsValidPosition (s : BState) (x y floor : Int) : Bool :=
  isValidMapPosition x y floor s.grid

/-- Overwrite one cell of the grid (`this.buildingMap[x][y][floor] = k`). -/
def setCell (g : Grid) (p : Position) (k : CellType) : Grid :=
  { g with cell := fun x y f =>
      if x = p.x ∧ y = p.y ∧ f = p.floor then k else g.cell x y f }

/-- `Set.add` on the fire-position set: append when not already present. -/
def addFireKey (fire : List Position) (p : Position) : List Position :=
  if p ∈ fire then fire else fire ++ [p]

/-- `startFire(position)`: returns whether the fire was started along with the
new state; only an in-bounds WALKABLE cell ignites, anything else leaves the
state unchanged and returns false. -/
def startFire (s : BState) (position : Position) : Bool × BState :=
  if bsIsValidPosition s position.x position.y position.floor &&
      decide (s.grid.cellAt position = CellType.WALKABLE) then
    (true, { s with
      grid := setCell s.grid position CellType.FIRE,
      firePositions := addFireKey s.firePositions position })
  else (false, s)

/-- The candidate collection loop of `spreadFire`: for every current fire
cell, every same-floor 8-neighbor that is in bounds and currently WALKABLE and
whose independent random draw succeeds (`Math.random() < fireSpreadRate`,
abstracted as the predicate `ignite source target`). -/
def spreadCandidates (ignite : Position → Position → Bool) (s : BState) :
    List Position :=
  s.firePositions.foldl (fun acc firePos =>
    acc ++ directions.filterMap (fun d =>
      let newX := firePos.x + d.1
      let newY := firePos.y + d.2
      let newPos : Position := ⟨newX, newY, firePos.floor⟩
      if bsIsValidPosition s newX newY firePos.floor &&
          decide (s.grid.cell newX newY firePos.floor = CellType.WALKABLE) &&
          ignite firePos newPos then
        some newPos
      else none)) []

/-- The application loop body of `spreadFire`: set the cell to FIRE and add
the position to the fire set. -/
def applyFirePos (st : BState) (pos : Position) : BState :=
  { st with
    grid := setCell st.grid pos CellType.FIRE
    firePositions := addFireKey st.firePositions pos }

/-- `spreadFire()`: compute all candidates from the pre-tick fire set, then
apply them. -/
def spreadFire (ignite : Position → Position → Bool) (s : BState) : BState :=
  let newFirePositions := spreadCandidates ignite s
  newFirePositions.foldl applyFirePos s

/-- `addPerson(position, name)`: throws on an out-of-bounds position, throws
on a non-traversable (WALL or FIRE) cell, otherwise appends one fresh
non-evacuated person with an empty path at the given position. -/
def addPerson (s : BState) (position : Position) (pid pname : String) :
    Except String BState :=
  if ¬(bsIsValidPosition s position.x position.y position.floor = true) then
    .error "Invalid position"
  else
    if s.grid.cellAt position ≠ CellType.WALKABLE ∧
        s.grid.cellAt position ≠ CellType.STAIRS ∧
        s.grid.cellAt position ≠ CellType.EXIT then
      .error "Position is not walkable"
    else
      .ok { s with people := s.people ++
        [{ id := pid, name := pname, position := position,
           targetPosition := none, path := [], currentPathIndex := 0,
           isEvacuated := false, movementSpeed := 1, trapped := false }] }

/-- `removePerson(personId)`. -/
def removePerson (s : BState) (personId : String) : BState :=
  { s with people := s.people.filter (fun p => p.id ≠ personId) }

/-- `setPersonPath(personId, path)`. -/
def setPersonPath (s : BState) (personId : String) (path : List Position) :
    BState :=
  { s with people := s.people.map (fun p =>
      if p.id = personId then
        { p with
          path := path
          currentPathIndex := 0
          targetPosition := (if 0 < path.length then
              some (path.getLastD p.position)
            else p.targetPosition) }
      else p) }

/-- `getExitPositions()`: every EXIT cell in x-major iteration order. -/
def getExitPositions (g : Grid) : List Position :=
  (List.range g.width).flatMap (fun x =>
    (List.range g.height).flatMap (fun y =>
      (List.range g.floors).filterMap (fun floor =>
        if g.cell (x : Int) (y : Int) (floor : Int) = CellType.EXIT then
          some ⟨(x : Int), (y : Int), (floor : Int)⟩
        else none)))

/-- The reroute scan inside `movePeople`: the first exit whose A* path exists,
has more than one step and is fire-free. -/
def moveReroute (g : Grid) (exits : List Position) (pos : Position) :
    Option (List Position) :=
  exits.findSome? (fun exitPos =>
    match findPathAStar pos exitPos g with
    | some newPath =>
      if 1 < newPath.length ∧ ¬(isPathBlockedByFire newPath g = true) then
        some newPath
      else none
    | none => none)

/-- The per-person body of `movePeople()`. -/
def movePerson (g : Grid) (exits : List Position) (person : Person) : Person :=
  if person.isEvacuated || decide (person.path.length = 0) || person.trapped then
    person
  else if person.currentPathIndex < person.path.length - 1 then
    let nextIndex := person.currentPathIndex + person.movementSpeed
    let targetIndex := min nextIndex (person.path.length - 1)
    let nextPosition := person.path.getD targetIndex person.position
    if g.cellAt nextPosition = CellType.FIRE then
      match moveReroute g exits person.position with
      | some newPath =>
        { person with path := newPath, currentPathIndex := 0 }
      | none => { person with trapped := true }
    else
      let person2 := { person with
        currentPathIndex := targetIndex, position := nextPosition }
      if g.cellAt nextPosition = CellType.EXIT then
        { person2 with isEvacuated := true }
      else person2
  else person

/-- `movePeople()`. -/
def movePeople (s : BState) : BState :=
  { s with people := s.people.map (movePerson s.grid (getExitPositions s.grid)) }

/-- Whether the person needs a new path: no path, or some position from the
current progress index onward is FIRE (`recalculateBlockedPaths`). -/
def needsNewPath (g : Grid) (person : Person) : Bool :=
  decide (person.path.length = 0) ||
  (person.path.drop person.currentPathIndex).any
    (fun pos => g.cell pos.x pos.y pos.floor = CellType.FIRE)

/-- The best-exit scan of `recalculateBlockedPaths`: A* to every exit, keeping
the strictly shortest candidate that is not blocked by fire. -/
def bestExitPath (g : Grid) (exits : List Position) (from_ : Position) :
    Option (List Position) :=
  exits.foldl (fun bestPath exitPos =>
    match findPathAStar from_ exitPos g with
    | some candidate =>
      if ¬(isPathBlockedByFire candidate g = true) then
        if (match bestPath with
            | none => true
            | some b => decide (candidate.length < b.length)) then
          some candidate
        else bestPath
      else bestPath
    | none => bestPath) none

/-- The per-person body of `recalculateBlockedPaths()`. -/
def recalcPerson (g : Grid) (exits : List Position) (person : Person) : Person :=
  if person.isEvacuated then person
  else if ¬(needsNewPath g person = true) then person
  else
    match bestExitPath g exits person.position with
    | some best =>
      { person with path := best, currentPathIndex := 0, trapped := false }
    | none => { person with trapped := true }

/-- `recalculateBlockedPaths()`. -/
def recalculateBlockedPaths (s : BState) : BState :=
  { s with people := s.people.map (recalcPerson s.grid (getExitPositions s.grid)) }

/-- `resetSimulation()`: revert every fire cell to WALKABLE, clear the fire
set, reset every person, zero the timestep. -/
def resetSimulation (s : BState) : BState :=
  let grid2 := s.firePositions.foldl
    (fun g pos => setCell g pos CellType.WALKABLE) s.grid
  { grid := grid2,
    firePositions := [],
    people := s.people.map (fun person =>
      { person with isEvacuated := false, path := [], currentPathIndex := 0 }),
    timestep := 0 }

/-- `step()`: one simulation tick, in source order — spread the fire,
recalculate blocked paths, move people, advance the timestep. -/
def stepSim (ignite : Position → Position → Bool) (s : BState) : BState :=
  let s1 := spreadFire ignite s
  let s2 := recalculateBlockedPaths s1
  let s3 := movePeople s2
  { s3 with timestep := s3.timestep + 1 }

/-- The operations that can change the simulation state between observations:
a manual ignition, a tick, a reset, or the person-collection operations. -/
inductive SimStep : BState → BState → Prop where
  | fire (s : BState) (p : Position) : SimStep s (startFire s p).2
  | tick (s : BState) (ignite : Position → Position → Bool) :
      SimStep s (stepSim ignite s)
  | reset (s : BState) : SimStep s (resetSimulation s)
  | add (s : BState) (p : Position) (pid pname : String) (s2 : BState)
      (h : addPerson s p pid pname = .ok s2) : SimStep s s2
  | remove (s : BState) (pid : String) : SimStep s (removePerson s pid)
  | setPath (s : BState) (pid : String) (path : List Position) :
      SimStep s (setPersonPath s pid path)

/-- Reachability from an initial state by any sequence of operations. -/
def Reachable (init s : BState) : Prop :=
  Relation.ReflTransGen SimStep init s

/-- The cell kinds that fire must never claim. -/
def protectedKinds : List CellType :=
  [CellType.WALL, CellType.STAIRS, CellType.EXIT]

/-- Invariant carried along `Reachable`: cells whose initial kind is
protected still have it, and every fire-set position is a FIRE cell. -/
def KindInv (init s : BState) : Prop :=
  (∀ x y f : Int, init.grid.cell x y f ∈ protectedKinds →
    s.grid.cell x y f = init.grid.cell x y f) ∧
  (∀ q ∈ s.firePositions, s.grid.cellAt q = CellType.FIRE)

/-! ## Concrete fixtures

Small concrete grids used to evaluate the embedded algorithms at specific
inputs.  `gridCorridor` has exactly two walkable cells `(1,1,0)` and
`(2,1,0)` forming a dead-end corridor; `gridIsolated` has the single walkable
cell `(1,1,0)`; `gridBlock` has a walkable 2-by-2 block. -/

def gridCorridor : Grid :=
  ⟨4, 3, 1, fun x y _f =>
    if (x = 1 ∨ x = 2) ∧ y = 1 then CellType.WALKABLE else CellType.WALL⟩

def gridIsolated : Grid :=
  ⟨4, 3, 1, fun x y _f =>
    if x = 1 ∧ y = 1 then CellType.WALKABLE else CellType.WALL⟩

def gridBlock : Grid :=
  ⟨4, 4, 1, fun x y _f =>
    if (x = 1 ∨ x = 2) ∧ (y = 1 ∨ y = 2) then CellType.WALKABLE
    else CellType.WALL⟩

def posA : Position := ⟨1, 1, 0⟩

def posB : Position := ⟨2, 1, 0⟩

def blockB : Position := ⟨1, 2, 0⟩

def blockD : Position := ⟨2, 2, 0⟩

/-- A state with the corridor grid, no fire and no people. -/
def stateCorridor : BState := ⟨gridCorridor, [], [], 0⟩

/-- The corridor grid with `(1,1,0)` already on fire. -/
def gridFire : Grid :=
  ⟨4, 3, 1, fun x y _f =>
    if x = 1 ∧ y = 1 then CellType.FIRE
    else if x = 2 ∧ y = 1 then CellType.WALKABLE
    else CellType.WALL⟩

/-- A state whose fire set holds `(1,1,0)`. -/
def stateFire : BState := ⟨gridFire, [posA], [], 0⟩

/-- A non-evacuated person standing at `(1,1,0)` with an empty path. -/
def personA : Person :=
  ⟨"p1", "n1", posA, none, [], 0, false, 1, false⟩

/-- The corridor state holding `personA`. -/
def statePersonNoPath : BState := ⟨gridCorridor, [], [personA], 0⟩

/-- A fixed integer draw stream. -/
def rhoZero : Nat → Nat := fun _ => 0

/-- A fixed threshold draw stream. -/
def sigmaFalse : Nat → Bool := fun _ => false

/-- A draw stream whose first draw picks index 2 and later draws index 0. -/
def rhoSplit : Nat → Nat := fun n => if n = 0 then 2 else 0

/-! ## Walks in the neighbor graph (for the BFS optimality statement) -/

/-- One legal move: `b` is among the neighbors of `a`. -/
def Adj (g : Grid) (a b : Position) : Prop :=
  b ∈ getNeighbors a g

/-- `w` is a path in the neighbor graph from `a` to `b`: nonempty, starting
at `a`, ending at `b`, every consecutive pair a legal move. -/
def IsWalkFromTo (g : Grid) (w : List Position) (a b : Position) : Prop :=
  w ≠ [] ∧ w.head? = some a ∧ w.getLast? = some b ∧ List.Chain' (Adj g) w

/-- Loop invariant of the BFS queue: every entry carries a walk from the
start to its position; entry lengths are nondecreasing and within one of each
other; `D` records the dequeue path length of each visited position, which
bounds every queue entry; every neighbor of a visited position is visited or
enqueued within one level; the start is covered; the goal is never visited. -/
structure BfsInv (g : Grid) (start goal : Position)
    (queue : List (Position × List Position)) (visited : List Position)
    (D : Position → Nat) : Prop where
  entries : ∀ e ∈ queue, IsWalkFromTo g e.2 start e.1
  sorted : queue.Pairwise (fun e1 e2 => e1.2.length ≤ e2.2.length)
  twoLevel : ∀ e1 ∈ queue, ∀ e2 ∈ queue, e2.2.length ≤ e1.2.length + 1
  visited_le : ∀ v ∈ visited, ∀ e ∈ queue, D v ≤ e.2.length
  visited_closed : ∀ v ∈ visited, ∀ u ∈ getNeighbors v g,
    (u ∈ visited ∧ D u ≤ D v + 1) ∨
    (∃ e ∈ queue, e.1 = u ∧ e.2.length ≤ D v + 1)
  start_cov : (start ∈ visited ∧ D start ≤ 1) ∨
    (∃ e ∈ queue, e.1 = start ∧ e.2.length ≤ 1)
  goal_not_visited : goal ∉ visited

/-! ## Theorems -/

theorem positionsEqual_iff (p1 p2 : Position) :
    positionsEqual p1 p2 = true ↔ p1 = p2 := by
  cases p1; cases p2
  simp [positionsEqual, Position.mk.injEq, and_assoc]

theorem ifSomeNone {c : Prop} [Decidable c] {α : Type} {a b : α} :
    ((if c then some a else none) = some b) ↔ (c ∧ a = b) := by
  split <;> simp_all

theorem isValidPosition_iff (x y f : Int) (g : Grid) :
    isValidPosition x y f g = true ↔
      (isValidMapPosition x y f g = true ∧ g.cell x y f ∈ traversableKinds) := by
  unfold isValidPosition
  cases h : isValidMapPosition x y f g
  · simp [h]
  · simp only [h, Bool.not_true, Bool.false_eq_true, if_false, true_and]
    cases g.cell x y f <;> simp [traversableKinds]

theorem inBoundsPos_iff (g : Grid) (q : Position) :
    inBoundsPos g q = true ↔
      (0 ≤ q.x ∧ q.x < (g.width : Int) ∧ 0 ≤ q.y ∧ q.y < (g.height : Int) ∧
       0 ≤ q.floor ∧ q.floor < (g.floors : Int)) := by
  simp [inBoundsPos, isValidMapPosition, and_assoc]

/-- Membership in the same-floor part of `getNeighbors`. -/
theorem mem_horizontal_neighbors (p : Position) (g : Grid) (q : Position) :
    q ∈ directions.filterMap (fun d =>
      if isValidPosition (p.x + d.1) (p.y + d.2) p.floor g then
        some (⟨p.x + d.1, p.y + d.2, p.floor⟩ : Position)
      else none) ↔
    (q.floor = p.floor ∧
     (q.x = p.x - 1 ∨ q.x = p.x ∨ q.x = p.x + 1) ∧
     (q.y = p.y - 1 ∨ q.y = p.y ∨ q.y = p.y + 1) ∧
     ¬(q.x = p.x ∧ q.y = p.y) ∧
     isValidPosition q.x q.y q.floor g = true) := by
  simp only [List.mem_filterMap, ifSomeNone]
  constructor
  · rintro ⟨d, hd, hvalid, rfl⟩
    simp only [directions, List.mem_cons, List.not_mem_nil, or_false] at hd
    rcases hd with rfl | rfl | rfl | rfl | rfl | rfl | rfl | rfl <;>
      refine ⟨rfl, by dsimp only; omega, by dsimp only; omega,
        by dsimp only; omega, hvalid⟩
  · rintro ⟨hf, hx, hy, hne, hvalid⟩
    refine ⟨(q.x - p.x, q.y - p.y), ?_, ?_, ?_⟩
    · rcases hx with hx | hx | hx <;> rcases hy with hy | hy | hy <;>
        simp only [directions, List.mem_cons, List.not_mem_nil, or_false,
          Prod.mk.injEq] <;> omega
    · have hx2 : p.x + (q.x - p.x) = q.x := by omega
      have hy2 : p.y + (q.y - p.y) = q.y := by omega
      rw [hx2, hy2, ← hf]
      exact hvalid
    · cases q
      simp only [Position.mk.injEq]
      refine ⟨by omega, by omega, hf.symm⟩

/-- Membership in the stairs part of `getNeighbors`. -/
theorem mem_stairs_neighbors (p : Position) (g : Grid) (q : Position)
    (hp : inBoundsPos g p = true) :
    q ∈ (if g.cell p.x p.y p.floor = CellType.STAIRS then
      [p.floor - 1, p.floor + 1].filterMap (fun newFloor =>
        if 0 ≤ newFloor ∧ newFloor < (g.floors : Int) ∧
            g.cell p.x p.y newFloor = CellType.STAIRS then
          some (⟨p.x, p.y, newFloor⟩ : Position)
        else none)
    else []) ↔
    (g.cellAt p = CellType.STAIRS ∧ q.x = p.x ∧ q.y = p.y ∧
     (q.floor = p.floor - 1 ∨ q.floor = p.floor + 1) ∧
     inBoundsPos g q = true ∧ g.cellAt q = CellType.STAIRS) := by
  rw [inBoundsPos_iff] at hp
  constructor
  · intro hq
    by_cases hstairs : g.cell p.x p.y p.floor = CellType.STAIRS
    · rw [if_pos hstairs] at hq
      simp only [List.mem_filterMap, List.mem_cons, List.not_mem_nil, or_false,
        ifSomeNone] at hq
      obtain ⟨nf, hnf, ⟨h0, hlt, hcell⟩, rfl⟩ := hq
      refine ⟨hstairs, rfl, rfl, ?_, ?_, hcell⟩
      · rcases hnf with rfl | rfl
        · exact Or.inl rfl
        · exact Or.inr rfl
      · rw [inBoundsPos_iff]
        exact ⟨hp.1, hp.2.1, hp.2.2.1, hp.2.2.2.1, h0, hlt⟩
    · rw [if_neg hstairs] at hq
      exact absurd hq (List.not_mem_nil q)
  · rintro ⟨hstairs, hx, hy, hfl, hqb, hqcell⟩
    rw [inBoundsPos_iff] at hqb
    rw [if_pos (show g.cell p.x p.y p.floor = CellType.STAIRS from hstairs)]
    simp only [List.mem_filterMap, List.mem_cons, List.not_mem_nil, or_false,
      ifSomeNone]
    refine ⟨q.floor, ?_, ⟨hqb.2.2.2.2.1, hqb.2.2.2.2.2, ?_⟩, ?_⟩
    · tauto
    · rw [← hx, ← hy]; exact hqcell
    · cases q
      simp only [Position.mk.injEq]
      exact ⟨hx.symm, hy.symm, trivial⟩

/-- C2: for an in-bounds position `p`, `getNeighbors` contains exactly the
in-bounds traversable same-floor 8-neighbors, plus the stair transitions; it
never contains a Wall cell, a Fire cell, or an out-of-bounds position. -/
theorem getNeighbors_spec (g : Grid) (p : Position) (hp : inBoundsPos g p = true) :
    (∀ q : Position,
      q ∈ getNeighbors p g ↔
        ((q.floor = p.floor ∧
          (q.x = p.x - 1 ∨ q.x = p.x ∨ q.x = p.x + 1) ∧
          (q.y = p.y - 1 ∨ q.y = p.y ∨ q.y = p.y + 1) ∧
          ¬(q.x = p.x ∧ q.y = p.y) ∧
          inBoundsPos g q = true ∧ g.cellAt q ∈ traversableKinds) ∨
         (g.cellAt p = CellType.STAIRS ∧ q.x = p.x ∧ q.y = p.y ∧
          (q.floor = p.floor - 1 ∨ q.floor = p.floor + 1) ∧
          inBoundsPos g q = true ∧ g.cellAt q = CellType.STAIRS))) ∧
    (∀ q ∈ getNeighbors p g,
      g.cellAt q ≠ CellType.WALL ∧ g.cellAt q ≠ CellType.FIRE ∧
      inBoundsPos g q = true) := by
  have hmain : ∀ q : Position,
      q ∈ getNeighbors p g ↔
        ((q.floor = p.floor ∧
          (q.x = p.x - 1 ∨ q.x = p.x ∨ q.x = p.x + 1) ∧
          (q.y = p.y - 1 ∨ q.y = p.y ∨ q.y = p.y + 1) ∧
          ¬(q.x = p.x ∧ q.y = p.y) ∧
          inBoundsPos g q = true ∧ g.cellAt q ∈ traversableKinds) ∨
         (g.cellAt p = CellType.STAIRS ∧ q.x = p.x ∧ q.y = p.y ∧
          (q.floor = p.floor - 1 ∨ q.floor = p.floor + 1) ∧
          inBoundsPos g q = true ∧ g.cellAt q = CellType.STAIRS)) := by
    intro q
    unfold getNeighbors
    rw [List.mem_append, mem_horizontal_neighbors, mem_stairs_neighbors p g q hp]
    constructor
    · rintro (⟨hf, hx, hy, hne, hvalid⟩ | hstairs)
      · rw [isValidPosition_iff] at hvalid
        exact Or.inl ⟨hf, hx, hy, hne, hvalid.1, hvalid.2⟩
      · exact Or.inr hstairs
    · rintro (⟨hf, hx, hy, hne, hb, hkind⟩ | hstairs)
      · refine Or.inl ⟨hf, hx, hy, hne, ?_⟩
        rw [isValidPosition_iff]
        exact ⟨hb, hkind⟩
      · exact Or.inr hstairs
  refine ⟨hmain, ?_⟩
  intro q hq
  rcases (hmain q).mp hq with ⟨_, _, _, _, hb, hkind⟩ | ⟨_, _, _, _, hb, hkind⟩
  · refine ⟨?_, ?_, hb⟩ <;>
      · intro hc
        rw [hc] at hkind
        simp [traversableKinds] at hkind
  · rw [hkind]
    exact ⟨by simp, by simp, hb⟩


/-- Witness for C2: the characterization instantiated at the in-bounds
position `(1,1,0)` of the corridor grid. -/
theorem getNeighbors_spec_witness :
    (∀ q : Position,
      q ∈ getNeighbors posA gridCorridor ↔
        ((q.floor = posA.floor ∧
          (q.x = posA.x - 1 ∨ q.x = posA.x ∨ q.x = posA.x + 1) ∧
          (q.y = posA.y - 1 ∨ q.y = posA.y ∨ q.y = posA.y + 1) ∧
          ¬(q.x = posA.x ∧ q.y = posA.y) ∧
          inBoundsPos gridCorridor q = true ∧
          gridCorridor.cellAt q ∈ traversableKinds) ∨
         (gridCorridor.cellAt posA = CellType.STAIRS ∧ q.x = posA.x ∧
          q.y = posA.y ∧
          (q.floor = posA.floor - 1 ∨ q.floor = posA.floor + 1) ∧
          inBoundsPos gridCorridor q = true ∧
          gridCorridor.cellAt q = CellType.STAIRS))) ∧
    (∀ q ∈ getNeighbors posA gridCorridor,
      gridCorridor.cellAt q ≠ CellType.WALL ∧
      gridCorridor.cellAt q ≠ CellType.FIRE ∧
      inBoundsPos gridCorridor q = true) :=
  getNeighbors_spec gridCorridor posA (by decide)

/-! ### C9: addPerson error handling -/

/-- C9: `addPerson` raises on out-of-bounds coordinates (never clamps),
rejects placement on a Wall or Fire cell, and otherwise appends exactly one
fresh non-evacuated agent at the given position with an empty path and
progress index 0; in the failure cases no state is produced, so the grid and
the agent collection are unchanged. -/
theorem addPerson_spec (s : BState) (position : Position) (pid pname : String) :
    (¬(bsIsValidPosition s position.x position.y position.floor = true) →
      addPerson s position pid pname = .error "Invalid position") ∧
    (bsIsValidPosition s position.x position.y position.floor = true →
      (s.grid.cellAt position = CellType.WALL ∨
       s.grid.cellAt position = CellType.FIRE) →
      addPerson s position pid pname = .error "Position is not walkable") ∧
    (bsIsValidPosition s position.x position.y position.floor = true →
      s.grid.cellAt position ∈ traversableKinds →
      addPerson s position pid pname = .ok { s with people := s.people ++
        [{ id := pid, name := pname, position := position,
           targetPosition := none, path := [], currentPathIndex := 0,
           isEvacuated := false, movementSpeed := 1, trapped := false }] }) := by
  refine ⟨?_, ?_, ?_⟩
  · intro h
    simp [addPerson, h]
  · intro h hcell
    rcases hcell with hcell | hcell <;> simp [addPerson, h, hcell]
  · intro h hk
    simp only [traversableKinds, List.mem_cons, List.not_mem_nil, or_false] at hk
    rcases hk with hk | hk | hk <;> simp [addPerson, h, hk]

/-- Witness for C9: placing a person on the walkable cell of the corridor
grid succeeds and appends exactly that person. -/
theorem addPerson_spec_witness :
    addPerson stateCorridor posA "p1" "n1" = .ok { stateCorridor with
      people := stateCorridor.people ++
        [{ id := "p1", name := "n1", position := posA, targetPosition := none,
           path := [], currentPathIndex := 0, isEvacuated := false,
           movementSpeed := 1, trapped := false }] } :=
  (addPerson_spec stateCorridor posA "p1" "n1").2.2 (by decide) (by decide)

/-! ### C3: behavior on unreachable goals -/

theorem getNeighbors_isolated : getNeighbors posA gridIsolated = [] := by
  decide

theorem rwC_isolated (rho : Nat → Nat) (c maxSteps : Nat) :
    findPathRandomWalkC rho c posA posB gridIsolated maxSteps = (none, c) := by
  unfold findPathRandomWalkC
  cases maxSteps with
  | zero => rfl
  | succ n =>
    simp [rwAux, getNeighbors_isolated, show ¬(posA = posB) from by decide]

theorem gaSeed_isolated (rho : Nat → Nat) (n c : Nat) :
    gaSeed rho posA posB gridIsolated n c = ([], c) := by
  induction n generalizing c with
  | zero => rfl
  | succ k ih => simp [gaSeed, rwC_isolated, ih]

/-- C3 (failing case): with the goal unreachable from the start — here the
start cell is walled in, so every seeding random walk fails and the population
stays empty — `findPathGA` with its default parameters dereferences the
`undefined` element `population[0]` (`parent1.length`) and throws, for every
possible sequence of random draws, instead of returning absent; A* and BFS on
the same input return absent as the claim demands. -/
theorem findPathGA_unreachable_throws :
    (∀ (rho : Nat → Nat) (sigma : Nat → Bool),
      findPathGA rho sigma posA posB gridIsolated 10 10 = .error ()) ∧
    findPathAStar posA posB gridIsolated = none ∧
    findPathBFS posA posB gridIsolated = none := by
  refine ⟨?_, by decide, by decide⟩
  intro rho sigma
  unfold findPathGA
  rw [gaSeed_isolated]
  show gaGens rho sigma posB gridIsolated 10 (9 + 1) [] none 0 = .error ()
  simp [gaGens, sortStable]

/-! ### C4: returned paths as start-goal walks -/

/-- C4 (failing case): on the corridor grid the goal is a neighbor of the
start, yet `findPathBidirectional` returns `[start]` — a path that does not
end at the goal — because its splice drops the meeting node
(`pathG.slice(0, -1)` removes it while `pathS` still ends before it). -/
theorem findPathBidirectional_invalid_path :
    findPathBidirectional posA posB gridCorridor = some [posA] ∧
    posA ≠ posB ∧ posB ∈ getNeighbors posA gridCorridor := by
  refine ⟨by decide, by decide, by decide⟩

/-! ### C6 and C10: fire behavior -/

theorem mem_addFireKey (fire : List Position) (p q : Position) :
    q ∈ addFireKey fire p ↔ q ∈ fire ∨ q = p := by
  unfold addFireKey
  by_cases h : p ∈ fire
  · rw [if_pos h]
    constructor
    · exact Or.inl
    · rintro (hq | rfl)
      · exact hq
      · exact h
  · rw [if_neg h]
    simp [List.mem_append]

theorem mem_foldl_addFireKey (l init : List Position) (q : Position) :
    q ∈ l.foldl addFireKey init ↔ q ∈ init ∨ q ∈ l := by
  induction l generalizing init with
  | nil => simp
  | cons p rest ih =>
    simp only [List.foldl_cons, ih, mem_addFireKey, List.mem_cons]
    tauto

theorem foldl_applyFirePos_grid (news : List Position) (st : BState) :
    (news.foldl applyFirePos st).grid =
      news.foldl (fun g2 pos => setCell g2 pos CellType.FIRE) st.grid := by
  induction news generalizing st with
  | nil => rfl
  | cons p rest ih => simp only [List.foldl_cons, ih, applyFirePos]

theorem foldl_applyFirePos_fire (news : List Position) (st : BState) :
    (news.foldl applyFirePos st).firePositions =
      news.foldl addFireKey st.firePositions := by
  induction news generalizing st with
  | nil => rfl
  | cons p rest ih => simp only [List.foldl_cons, ih, applyFirePos]

theorem foldl_setCell_cell (l : List Position) (g0 : Grid) (k : CellType)
    (x y f : Int) :
    (l.foldl (fun g2 pos => setCell g2 pos k) g0).cell x y f =
    if l.any (fun pos => decide (x = pos.x) && decide (y = pos.y) &&
        decide (f = pos.floor)) then k
    else g0.cell x y f := by
  induction l generalizing g0 with
  | nil => simp
  | cons p rest ih =>
    simp only [List.foldl_cons, ih, List.any_cons]
    by_cases hr : rest.any (fun pos => decide (x = pos.x) && decide (y = pos.y)
        && decide (f = pos.floor)) = true
    · simp [hr]
    · by_cases hm : x = p.x ∧ y = p.y ∧ f = p.floor
      · simp [hr, hm, setCell, and_assoc]
      · simp [hr, hm, setCell, and_assoc]

theorem mem_foldl_append {α β : Type} (l : List α) (gen : α → List β)
    (init : List β) (q : β) :
    q ∈ l.foldl (fun acc a => acc ++ gen a) init ↔
      q ∈ init ∨ ∃ a ∈ l, q ∈ gen a := by
  induction l generalizing init with
  | nil => simp
  | cons a rest ih =>
    simp only [List.foldl_cons, ih, List.mem_append, List.mem_cons]
    constructor
    · rintro ((hq | hq) | ⟨b, hb, hq⟩)
      · exact Or.inl hq
      · exact Or.inr ⟨a, Or.inl rfl, hq⟩
      · exact Or.inr ⟨b, Or.inr hb, hq⟩
    · rintro (hq | ⟨b, (rfl | hb), hq⟩)
      · exact Or.inl (Or.inl hq)
      · exact Or.inl (Or.inr hq)
      · exact Or.inr ⟨b, hb, hq⟩

theorem mem_spreadCandidates (ignite : Position → Position → Bool) (s : BState)
    (q : Position) (hq : q ∈ spreadCandidates ignite s) :
    s.grid.cellAt q = CellType.WALKABLE ∧
    ∃ f ∈ s.firePositions, f.floor = q.floor ∧
      (q.x = f.x - 1 ∨ q.x = f.x ∨ q.x = f.x + 1) ∧
      (q.y = f.y - 1 ∨ q.y = f.y ∨ q.y = f.y + 1) ∧
      ¬(q.x = f.x ∧ q.y = f.y) := by
  unfold spreadCandidates at hq
  rw [mem_foldl_append] at hq
  rcases hq with h | ⟨fp, hfp, hq⟩
  · exact absurd h (List.not_mem_nil q)
  · simp only [List.mem_filterMap, ifSomeNone, Bool.and_eq_true,
      decide_eq_true_eq] at hq
    obtain ⟨d, hd, ⟨⟨_, hwalk⟩, _⟩, rfl⟩ := hq
    constructor
    · exact hwalk
    · refine ⟨fp, hfp, ?_⟩
      simp only [directions, List.mem_cons, List.not_mem_nil, or_false] at hd
      rcases hd with rfl | rfl | rfl | rfl | rfl | rfl | rfl | rfl <;>
        refine ⟨rfl, by dsimp only; omega, by dsimp only; omega,
          by dsimp only; omega⟩

theorem stepSim_firePositions (ignite : Position → Position → Bool)
    (s : BState) :
    (stepSim ignite s).firePositions = (spreadFire ignite s).firePositions :=
  rfl

theorem stepSim_grid (ignite : Position → Position → Bool) (s : BState) :
    (stepSim ignite s).grid = (spreadFire ignite s).grid :=
  rfl

/-- C6: the fire set grows monotonically across ticks — every pre-tick fire
position is still on fire after `step()`, and `startFire` also never removes
one — and the spread step ignites only positions that are same-floor
8-neighbors of pre-tick fire cells and were WALKABLE at the start of the tick
(candidates are computed from the pre-tick fire set, so newly ignited cells
never cascade within a tick). -/
theorem fire_spread_monotone_spec (s : BState)
    (ignite : Position → Position → Bool) :
    (∀ q ∈ s.firePositions, q ∈ (stepSim ignite s).firePositions) ∧
    (∀ q ∈ (stepSim ignite s).firePositions, q ∉ s.firePositions →
      s.grid.cellAt q = CellType.WALKABLE ∧
      ∃ f ∈ s.firePositions, f.floor = q.floor ∧
        (q.x = f.x - 1 ∨ q.x = f.x ∨ q.x = f.x + 1) ∧
        (q.y = f.y - 1 ∨ q.y = f.y ∨ q.y = f.y + 1) ∧
        ¬(q.x = f.x ∧ q.y = f.y)) ∧
    (∀ (p : Position), ∀ q ∈ s.firePositions,
      q ∈ (startFire s p).2.firePositions) := by
  refine ⟨?_, ?_, ?_⟩
  · intro q hq
    rw [stepSim_firePositions]
    unfold spreadFire
    rw [foldl_applyFirePos_fire, mem_foldl_addFireKey]
    exact Or.inl hq
  · intro q hq hnot
    rw [stepSim_firePositions] at hq
    unfold spreadFire at hq
    rw [foldl_applyFirePos_fire, mem_foldl_addFireKey] at hq
    rcases hq with hq | hq
    · exact absurd hq hnot
    · exact mem_spreadCandidates ignite s q hq
  · intro p q hq
    unfold startFire
    by_cases hc : (bsIsValidPosition s p.x p.y p.floor &&
        decide (s.grid.cellAt p = CellType.WALKABLE)) = true
    · rw [if_pos hc]
      rw [mem_addFireKey]
      exact Or.inl hq
    · rw [if_neg hc]
      exact hq

/-- Witness for C6: in the fire state the tick ignites `(2,1,0)`, which was
walkable and is an 8-neighbor of the burning cell `(1,1,0)`. -/
theorem fire_spread_monotone_spec_witness :
    stateFire.grid.cellAt posB = CellType.WALKABLE ∧
    ∃ f ∈ stateFire.firePositions, f.floor = posB.floor ∧
      (posB.x = f.x - 1 ∨ posB.x = f.x ∨ posB.x = f.x + 1) ∧
      (posB.y = f.y - 1 ∨ posB.y = f.y ∨ posB.y = f.y + 1) ∧
      ¬(posB.x = f.x ∧ posB.y = f.y) :=
  (fire_spread_monotone_spec stateFire (fun _ _ => true)).2.1 posB
    (by decide) (by decide)

theorem addPerson_ok_fields (s : BState) (pos : Position) (pid pname : String)
    (s2 : BState) (h : addPerson s pos pid pname = .ok s2) :
    s2.grid = s.grid ∧ s2.firePositions = s.firePositions := by
  unfold addPerson at h
  split at h
  · cases h
  · split at h
    · cases h
    · cases h
      exact ⟨rfl, rfl⟩

theorem simStep_preserves_kindInv (init s s2 : BState) (hstep : SimStep s s2)
    (hinv : KindInv init s) : KindInv init s2 := by
  have hprotected_ne : ∀ k ∈ protectedKinds,
      k ≠ CellType.WALKABLE ∧ k ≠ CellType.FIRE := by
    intro k hk
    simp only [protectedKinds, List.mem_cons, List.not_mem_nil, or_false] at hk
    rcases hk with rfl | rfl | rfl <;> exact ⟨by simp, by simp⟩
  cases hstep with
  | fire p =>
    unfold startFire
    by_cases hc : (bsIsValidPosition s p.x p.y p.floor &&
        decide (s.grid.cellAt p = CellType.WALKABLE)) = true
    · rw [if_pos hc]
      have hwalk : s.grid.cellAt p = CellType.WALKABLE := by
        have h2 := (Bool.and_eq_true _ _).mp hc
        exact of_decide_eq_true h2.2
      constructor
      · intro x y f hk
        by_cases hm : x = p.x ∧ y = p.y ∧ f = p.floor
        · exfalso
          obtain ⟨rfl, rfl, rfl⟩ := hm
          have := hinv.1 p.x p.y p.floor hk
          rw [show s.grid.cell p.x p.y p.floor = s.grid.cellAt p from rfl,
            hwalk] at this
          exact (hprotected_ne _ hk).1 this.symm
        · show (setCell s.grid p CellType.FIRE).cell x y f = _
          rw [setCell]
          simp only [hm, if_false]
          exact hinv.1 x y f hk
      · intro q hq
        rw [mem_addFireKey] at hq
        show (setCell s.grid p CellType.FIRE).cell q.x q.y q.floor =
          CellType.FIRE
        rw [setCell]
        by_cases hm : q.x = p.x ∧ q.y = p.y ∧ q.floor = p.floor
        · simp [hm]
        · simp only [hm, if_false]
          rcases hq with hq | rfl
          · exact hinv.2 q hq
          · exact absurd ⟨rfl, rfl, rfl⟩ hm
    · rw [if_neg hc]
      exact hinv
  | tick ignite =>
    constructor
    · intro x y f hk
      rw [stepSim_grid]
      unfold spreadFire
      rw [foldl_applyFirePos_grid, foldl_setCell_cell]
      split
      · next hany =>
        exfalso
        rw [List.any_eq_true] at hany
        obtain ⟨pos, hpos, hmatch⟩ := hany
        simp only [Bool.and_eq_true, decide_eq_true_eq] at hmatch
        obtain ⟨⟨hx, hy⟩, hf⟩ := hmatch
        have hw := (mem_spreadCandidates ignite s pos hpos).1
        rw [show s.grid.cellAt pos = s.grid.cell pos.x pos.y pos.floor from rfl,
          ← hx, ← hy, ← hf, hinv.1 x y f hk] at hw
        exact (hprotected_ne _ hk).1 hw
      · exact hinv.1 x y f hk
    · intro q hq
      rw [stepSim_firePositions] at hq
      unfold spreadFire at hq
      rw [foldl_applyFirePos_fire, mem_foldl_addFireKey] at hq
      rw [stepSim_grid]
      unfold spreadFire
      show (_ : Grid).cell q.x q.y q.floor = CellType.FIRE
      rw [foldl_applyFirePos_grid, foldl_setCell_cell]
      by_cases hany : (spreadCandidates ignite s).any
          (fun pos => decide (q.x = pos.x) && decide (q.y = pos.y) &&
            decide (q.floor = pos.floor)) = true
      · rw [if_pos hany]
      · rw [if_neg hany]
        rcases hq with hq | hq
        · exact hinv.2 q hq
        · exfalso
          apply hany
          rw [List.any_eq_true]
          exact ⟨q, hq, by simp⟩
  | reset =>
    constructor
    · intro x y f hk
      show (s.firePositions.foldl
        (fun g2 pos => setCell g2 pos CellType.WALKABLE) s.grid).cell x y f = _
      rw [foldl_setCell_cell]
      split
      · next hany =>
        exfalso
        rw [List.any_eq_true] at hany
        obtain ⟨pos, hpos, hmatch⟩ := hany
        simp only [Bool.and_eq_true, decide_eq_true_eq] at hmatch
        obtain ⟨⟨hx, hy⟩, hf⟩ := hmatch
        have hfire := hinv.2 pos hpos
        rw [show s.grid.cellAt pos = s.grid.cell pos.x pos.y pos.floor from rfl,
          ← hx, ← hy, ← hf, hinv.1 x y f hk] at hfire
        exact (hprotected_ne _ hk).2 hfire
      · exact hinv.1 x y f hk
    · intro q hq
      exact absurd hq (List.not_mem_nil q)
  | add p pid pname s2 h =>
    obtain ⟨hg, hf⟩ := addPerson_ok_fields _ p pid pname _ h
    constructor
    · intro x y f hk
      rw [hg]
      exact hinv.1 x y f hk
    · intro q hq
      rw [hf] at hq
      rw [show s2.grid.cellAt q = s2.grid.cell q.x q.y q.floor from rfl, hg]
      exact hinv.2 q hq
  | remove pid => exact hinv
  | setPath pid path =>
    constructor
    · intro x y f hk
      exact hinv.1 x y f hk
    · intro q hq
      exact hinv.2 q hq

/-- C10: starting from a state with an empty fire set, in every reachable
state every cell whose initial kind is Wall, Stairs or Exit still has that
kind (manual ignition and spread convert only WALKABLE cells), and
`startFire` on a non-WALKABLE cell returns false and changes nothing. -/
theorem kinds_never_burn (init s : BState) (hfire : init.firePositions = [])
    (hreach : Reachable init s) :
    (∀ x y f : Int, init.grid.cell x y f ∈ protectedKinds →
      s.grid.cell x y f = init.grid.cell x y f) ∧
    (∀ (s0 : BState) (p : Position), s0.grid.cellAt p ≠ CellType.WALKABLE →
      startFire s0 p = (false, s0)) := by
  have hinv : KindInv init s := by
    induction hreach with
    | refl =>
      refine ⟨fun x y f _ => rfl, ?_⟩
      rw [hfire]
      intro q hq
      exact absurd hq (List.not_mem_nil q)
    | tail hsteps hstep ih => exact simStep_preserves_kindInv _ _ _ hstep ih
  refine ⟨hinv.1, ?_⟩
  intro s0 p hnw
  unfold startFire
  rw [if_neg]
  simp [hnw]

/-- Witness for C10: from the corridor state, the state after one manual
ignition still has every protected cell intact, and `startFire` on the wall
cell `(0,0,0)` refuses. -/
theorem kinds_never_burn_witness :
    (∀ x y f : Int, stateCorridor.grid.cell x y f ∈ protectedKinds →
      (startFire stateCorridor posA).2.grid.cell x y f =
        stateCorridor.grid.cell x y f) ∧
    (∀ (s0 : BState) (p : Position), s0.grid.cellAt p ≠ CellType.WALKABLE →
      startFire s0 p = (false, s0)) :=
  kinds_never_burn stateCorridor (startFire stateCorridor posA).2 rfl
    (Relation.ReflTransGen.single (SimStep.fire stateCorridor posA))

/-! ### C1: replanning of stale paths -/

theorem needsNewPath_iff (g : Grid) (p : Person) :
    needsNewPath g p = true ↔
      (p.path = [] ∨ ∃ j, ∃ h : j < p.path.length, p.currentPathIndex ≤ j ∧
        g.cellAt (p.path.get ⟨j, h⟩) = CellType.FIRE) := by
  unfold needsNewPath
  rw [Bool.or_eq_true, decide_eq_true_eq, List.length_eq_zero,
    List.any_eq_true]
  apply or_congr Iff.rfl
  constructor
  · rintro ⟨pos, hmem, hfire⟩
    rw [List.mem_iff_getElem] at hmem
    obtain ⟨j, hj, rfl⟩ := hmem
    rw [List.getElem_drop] at hfire
    have hlen : p.currentPathIndex + j < p.path.length := by
      have := hj
      rw [List.length_drop] at this
      omega
    refine ⟨p.currentPathIndex + j, hlen, by omega, ?_⟩
    rw [decide_eq_true_eq] at hfire
    exact hfire
  · rintro ⟨j, h, hle, hfire⟩
    refine ⟨p.path.get ⟨j, h⟩, ?_, ?_⟩
    · rw [List.mem_iff_getElem]
      have hj2 : j - p.currentPathIndex < (p.path.drop p.currentPathIndex).length := by
        rw [List.length_drop]
        omega
      refine ⟨j - p.currentPathIndex, hj2, ?_⟩
      rw [List.getElem_drop]
      congr 1
      omega
    · rw [decide_eq_true_eq]
      exact hfire

/-- Behavior of the best-exit fold of `recalculateBlockedPaths`, relative to
an arbitrary accumulator. -/
theorem bestExit_foldl_spec (g : Grid) (from_ : Position)
    (exits : List Position) :
    ∀ acc : Option (List Position),
    (∀ b, exits.foldl (fun bestPath exitPos =>
        match findPathAStar from_ exitPos g with
        | some candidate =>
          if ¬(isPathBlockedByFire candidate g = true) then
            if (match bestPath with
                | none => true
                | some b2 => decide (candidate.length < b2.length)) then
              some candidate
            else bestPath
          else bestPath
        | none => bestPath) acc = some b →
      ((acc = some b ∨ ∃ e ∈ exits, findPathAStar from_ e g = some b ∧
          isPathBlockedByFire b g = false) ∧
       (∀ e ∈ exits, ∀ c, findPathAStar from_ e g = some c →
          isPathBlockedByFire c g = false → b.length ≤ c.length) ∧
       (∀ a, acc = some a → b.length ≤ a.length))) ∧
    (exits.foldl (fun bestPath exitPos =>
        match findPathAStar from_ exitPos g with
        | some candidate =>
          if ¬(isPathBlockedByFire candidate g = true) then
            if (match bestPath with
                | none => true
                | some b2 => decide (candidate.length < b2.length)) then
              some candidate
            else bestPath
          else bestPath
        | none => bestPath) acc = none →
      acc = none ∧ ∀ e ∈ exits, ∀ c, findPathAStar from_ e g = some c →
        isPathBlockedByFire c g = false → False) := by
  induction exits with
  | nil =>
    intro acc
    refine ⟨?_, ?_⟩
    · intro b hb
      rw [List.foldl_nil] at hb
      exact ⟨Or.inl hb, by simp, fun a ha => by rw [hb] at ha; cases ha; omega⟩
    · intro hb
      rw [List.foldl_nil] at hb
      exact ⟨hb, by simp⟩
  | cons e rest ih =>
    intro acc
    rw [List.foldl_cons]
    -- analyze the first step
    rcases hA : findPathAStar from_ e g with _ | candidate
    · -- no candidate for e: accumulator unchanged
      refine ⟨?_, ?_⟩
      · intro b hb
        simp only [hA] at hb
        obtain ⟨h1, h2, h3⟩ := (ih acc).1 b hb
        refine ⟨?_, ?_, h3⟩
        · rcases h1 with h1 | ⟨e2, he2, hc⟩
          · exact Or.inl h1
          · exact Or.inr ⟨e2, List.mem_cons_of_mem _ he2, hc⟩
        · intro e2 he2 c hc hfree
          rcases List.mem_cons.mp he2 with rfl | he2
          · rw [hA] at hc; cases hc
          · exact h2 e2 he2 c hc hfree
      · intro hb
        simp only [hA] at hb
        obtain ⟨h1, h2⟩ := (ih acc).2 hb
        refine ⟨h1, ?_⟩
        intro e2 he2 c hc hfree
        rcases List.mem_cons.mp he2 with rfl | he2
        · rw [hA] at hc; cases hc
        · exact h2 e2 he2 c hc hfree
    · -- candidate for e exists
      by_cases hblocked : isPathBlockedByFire candidate g = true
      · -- blocked: accumulator unchanged
        refine ⟨?_, ?_⟩
        · intro b hb
          simp only [hA, hblocked, not_true, if_false] at hb
          obtain ⟨h1, h2, h3⟩ := (ih acc).1 b hb
          refine ⟨?_, ?_, h3⟩
          · rcases h1 with h1 | ⟨e2, he2, hc⟩
            · exact Or.inl h1
            · exact Or.inr ⟨e2, List.mem_cons_of_mem _ he2, hc⟩
          · intro e2 he2 c hc hfree
            rcases List.mem_cons.mp he2 with rfl | he2
            · rw [hA] at hc
              cases hc
              rw [hblocked] at hfree
              cases hfree
            · exact h2 e2 he2 c hc hfree
        · intro hb
          simp only [hA, hblocked, not_true, if_false] at hb
          obtain ⟨h1, h2⟩ := (ih acc).2 hb
          refine ⟨h1, ?_⟩
          intro e2 he2 c hc hfree
          rcases List.mem_cons.mp he2 with rfl | he2
          · rw [hA] at hc
            cases hc
            rw [hblocked] at hfree
            cases hfree
          · exact h2 e2 he2 c hc hfree
      · -- fire-free candidate: the accumulator becomes the shorter of the two
        have hfree : isPathBlockedByFire candidate g = false :=
          Bool.not_eq_true _ ▸ (Bool.eq_false_iff.mpr hblocked)
        set acc2 := (if (match acc with
            | none => true
            | some b2 => decide (candidate.length < b2.length)) then
          some candidate else acc) with hacc2
        have hacc2_cases : (acc2 = some candidate ∧
            (∀ a, acc = some a → candidate.length ≤ a.length)) ∨
            (∃ a, acc = some a ∧ acc2 = some a ∧ a.length ≤ candidate.length) := by
          rcases acc with _ | a
          · exact Or.inl ⟨by simp [hacc2], by intro a ha; cases ha⟩
          · by_cases hlt : candidate.length < a.length
            · refine Or.inl ⟨by simp [hacc2, hlt], ?_⟩
              intro a2 ha2
              cases ha2
              omega
            · refine Or.inr ⟨a, rfl, by simp [hacc2, hlt], by omega⟩
        refine ⟨?_, ?_⟩
        · intro b hb
          simp only [hA, hblocked, not_false_iff, if_true] at hb
          rw [← hacc2] at hb
          obtain ⟨h1, h2, h3⟩ := (ih acc2).1 b hb
          refine ⟨?_, ?_, ?_⟩
          · rcases h1 with h1 | ⟨e2, he2, hc⟩
            · rcases hacc2_cases with ⟨hc2, _⟩ | ⟨a, ha, hc2, _⟩
              · rw [h1] at hc2
                cases hc2
                exact Or.inr ⟨e, List.mem_cons_self _ _, hA, hfree⟩
              · rw [h1] at hc2
                cases hc2
                exact Or.inl ha
            · exact Or.inr ⟨e2, List.mem_cons_of_mem _ he2, hc⟩
          · intro e2 he2 c hc hfreec
            rcases List.mem_cons.mp he2 with rfl | he2
            · rw [hA] at hc
              cases hc
              -- b.length ≤ candidate.length via the accumulator clause
              rcases hacc2_cases with ⟨hc2, _⟩ | ⟨a, _, hc2, hle⟩
              · exact h3 _ hc2
              · exact le_trans (h3 a hc2) hle
            · exact h2 e2 he2 c hc hfreec
          · intro a ha
            rcases hacc2_cases with ⟨hc2, hmin⟩ | ⟨a2, ha2, hc2, _⟩
            · exact le_trans (h3 candidate hc2) (hmin a ha)
            · rw [ha] at ha2
              cases ha2
              exact h3 a hc2
        · intro hb
          simp only [hA, hblocked, not_false_iff, if_true] at hb
          rw [← hacc2] at hb
          obtain ⟨h1, _⟩ := (ih acc2).2 hb
          exfalso
          rcases hacc2_cases with ⟨hc2, _⟩ | ⟨a, _, hc2, _⟩ <;>
            rw [h1] at hc2 <;> cases hc2

/-- C1: per tick, `recalculateBlockedPaths` leaves the grid and fire set
alone and maps each person as follows — evacuated people and people with a
non-stale path are untouched; a non-evacuated person whose path is stale
(empty, or with a FIRE cell at or after the progress index) either receives
a fire-free A* path to some exit of minimal length among all fire-free A*
candidates over all exits, with progress index 0 and the trapped flag
cleared, or, when no exit yields a fire-free A* candidate, is marked trapped
with path and progress index untouched. -/
theorem recalculate_spec (s : BState) (i : Nat) (hi : i < s.people.length)
    (hi2 : i < (recalculateBlockedPaths s).people.length)
    (p p2 : Person) (hp : s.people.get ⟨i, hi⟩ = p)
    (hp2 : (recalculateBlockedPaths s).people.get ⟨i, hi2⟩ = p2) :
    (recalculateBlockedPaths s).grid = s.grid ∧
    (recalculateBlockedPaths s).firePositions = s.firePositions ∧
    (p.isEvacuated = true → p2 = p) ∧
    (p.isEvacuated = false →
      ¬(p.path = [] ∨ ∃ j, ∃ h : j < p.path.length, p.currentPathIndex ≤ j ∧
          s.grid.cellAt (p.path.get ⟨j, h⟩) = CellType.FIRE) →
      p2 = p) ∧
    (p.isEvacuated = false →
      (p.path = [] ∨ ∃ j, ∃ h : j < p.path.length, p.currentPathIndex ≤ j ∧
          s.grid.cellAt (p.path.get ⟨j, h⟩) = CellType.FIRE) →
      ((∃ bp, p2 = { p with path := bp, currentPathIndex := 0, trapped := false } ∧
          (∃ e ∈ getExitPositions s.grid,
            findPathAStar p.position e s.grid = some bp) ∧
          isPathBlockedByFire bp s.grid = false ∧
          (∀ e ∈ getExitPositions s.grid, ∀ c,
            findPathAStar p.position e s.grid = some c →
            isPathBlockedByFire c s.grid = false → bp.length ≤ c.length)) ∨
       (p2 = { p with trapped := true } ∧
         (∀ e ∈ getExitPositions s.grid, ∀ c,
           findPathAStar p.position e s.grid = some c →
           isPathBlockedByFire c s.grid = false → False)))) := by
  have hkey : p2 = recalcPerson s.grid (getExitPositions s.grid) p := by
    rw [← hp2, ← hp]
    simp [recalculateBlockedPaths]
  refine ⟨rfl, rfl, ?_, ?_, ?_⟩
  · intro hevac
    rw [hkey]
    unfold recalcPerson
    rw [if_pos hevac]
  · intro hevac hstale
    rw [← needsNewPath_iff] at hstale
    rw [hkey]
    unfold recalcPerson
    rw [if_neg (by rw [hevac]; exact Bool.false_ne_true), if_pos hstale]
  · intro hevac hstale
    rw [← needsNewPath_iff] at hstale
    rw [hkey]
    unfold recalcPerson
    rw [if_neg (by rw [hevac]; exact Bool.false_ne_true),
      if_neg (by rw [hstale]; exact fun h => h rfl)]
    rcases hbest : bestExitPath s.grid (getExitPositions s.grid) p.position
      with _ | best
    · refine Or.inr ⟨rfl, ?_⟩
      unfold bestExitPath at hbest
      exact ((bestExit_foldl_spec s.grid p.position
        (getExitPositions s.grid) none).2 hbest).2
    · refine Or.inl ⟨best, rfl, ?_⟩
      unfold bestExitPath at hbest
      obtain ⟨h1, h2, _⟩ := (bestExit_foldl_spec s.grid p.position
        (getExitPositions s.grid) none).1 best hbest
      rcases h1 with h1 | ⟨e, he, hc, hfree⟩
      · cases h1
      · exact ⟨⟨e, he, hc⟩, hfree, h2⟩

/-- Witness for C1: a non-evacuated person with an empty (hence stale) path
on the exit-free corridor grid is marked trapped by the replanning step. -/
theorem recalculate_spec_witness :
    (recalculateBlockedPaths statePersonNoPath).grid = statePersonNoPath.grid ∧
    (recalculateBlockedPaths statePersonNoPath).firePositions =
      statePersonNoPath.firePositions ∧
    (personA.isEvacuated = true →
      (recalculateBlockedPaths statePersonNoPath).people.get
        ⟨0, by decide⟩ = personA) ∧
    (personA.isEvacuated = false →
      ¬(personA.path = [] ∨ ∃ j, ∃ h : j < personA.path.length,
          personA.currentPathIndex ≤ j ∧
          statePersonNoPath.grid.cellAt (personA.path.get ⟨j, h⟩) =
            CellType.FIRE) →
      (recalculateBlockedPaths statePersonNoPath).people.get
        ⟨0, by decide⟩ = personA) ∧
    (personA.isEvacuated = false →
      (personA.path = [] ∨ ∃ j, ∃ h : j < personA.path.length,
          personA.currentPathIndex ≤ j ∧
          statePersonNoPath.grid.cellAt (personA.path.get ⟨j, h⟩) =
            CellType.FIRE) →
      ((∃ bp, (recalculateBlockedPaths statePersonNoPath).people.get
            ⟨0, by decide⟩ = { personA with path := bp, currentPathIndex := 0, trapped := false } ∧
          (∃ e ∈ getExitPositions statePersonNoPath.grid,
            findPathAStar personA.position e statePersonNoPath.grid =
              some bp) ∧
          isPathBlockedByFire bp statePersonNoPath.grid = false ∧
          (∀ e ∈ getExitPositions statePersonNoPath.grid, ∀ c,
            findPathAStar personA.position e statePersonNoPath.grid =
              some c →
            isPathBlockedByFire c statePersonNoPath.grid = false →
            bp.length ≤ c.length)) ∨
       ((recalculateBlockedPaths statePersonNoPath).people.get
            ⟨0, by decide⟩ = { personA with trapped := true } ∧
         (∀ e ∈ getExitPositions statePersonNoPath.grid, ∀ c,
           findPathAStar personA.position e statePersonNoPath.grid = some c →
           isPathBlockedByFire c statePersonNoPath.grid = false → False)))) :=
  recalculate_spec statePersonNoPath 0 (by decide) (by decide) personA
    ((recalculateBlockedPaths statePersonNoPath).people.get ⟨0, by decide⟩)
    (by decide) rfl

/-! ### C5: start == goal -/

/-- C5 (failing cases): with start == goal on a traversable cell, Dijkstra
returns absent (its minimum scan reads the start distance `0` through `|| Infinity`,
so no node is ever selected), Bidirectional returns `[start, n]` for the first
neighbor `n` (the goal-side expansion immediately meets the start side), and
Swarm returns a loop `[start, n, start]` on the corridor (its goal test runs
only after a step); none of them returns `[start]`. -/
theorem start_eq_goal_counterexample :
    gridCorridor.cellAt posA ∈ traversableKinds ∧
    findPathDijkstra posA posA gridCorridor = none ∧
    findPathBidirectional posA posA gridCorridor = some [posA, posB] ∧
    findPathSwarm rhoZero posA posA gridCorridor 10 10 =
      some [posA, posB, posA] ∧
    findPathDijkstra posA posA gridCorridor ≠ some [posA] ∧
    findPathBidirectional posA posA gridCorridor ≠ some [posA] ∧
    findPathSwarm rhoZero posA posA gridCorridor 10 10 ≠ some [posA] := by
  refine ⟨by decide, by decide, by decide, by decide, by decide, by decide,
    by decide⟩

theorem findPathAStarAux_goal (goal : Position) (g : Grid) (fuel : Nat)
    (nd : PathNode) (closed : List Position) (hpos : nd.position = goal) :
    findPathAStarAux goal g (fuel + 1) [nd] closed =
      some (reconstructPath nd) := by
  simp [findPathAStarAux, sortStable, insertStable, hpos]

theorem findPathAStarWeightedAux_goal (goal : Position) (g : Grid)
    (weight : Rat) (fuel : Nat) (nd : PathNode) (closed : List Position)
    (hpos : nd.position = goal) :
    findPathAStarWeightedAux goal g weight (fuel + 1) [nd] closed =
      some (reconstructPath nd) := by
  simp [findPathAStarWeightedAux, sortStable, insertStable, hpos]

theorem findPathGreedyAux_goal (goal : Position) (g : Grid) (fuel : Nat)
    (nd : PathNode) (closed : List Position) (hpos : nd.position = goal) :
    findPathGreedyAux goal g (fuel + 1) [nd] closed =
      some (reconstructPath nd) := by
  simp [findPathGreedyAux, sortStable, insertStable, hpos]

theorem astar_self (start : Position) (g : Grid) :
    findPathAStar start start g = some [start] :=
  findPathAStarAux_goal start g (g.width * g.height * g.floors + 1)
    (PathNode.root start 0 (calculateHeuristic start start)
      ((calculateHeuristic start start).addRat 0)) [] rfl

theorem weighted_self (start : Position) (g : Grid) (weight : Rat) :
    findPathAStarWeighted start start g weight = some [start] :=
  findPathAStarWeightedAux_goal start g weight
    (g.width * g.height * g.floors + 1)
    (PathNode.root start 0 (calculateHeuristic start start)
      (((calculateHeuristic start start).scale weight).addRat 0)) [] rfl

theorem greedy_self (start : Position) (g : Grid) :
    findPathGreedyBestFirst start start g = some [start] :=
  findPathGreedyAux_goal start g (g.width * g.height * g.floors + 1)
    (PathNode.root start 0 (calculateHeuristic start start)
      (calculateHeuristic start start)) [] rfl

theorem anytimeAux_self (start : Position) (g : Grid) :
    ∀ (rounds : Nat) (epsilon : Rat) (best : Option (List Position)),
      anytimeAux start start g (rounds + 1) epsilon best = some [start] := by
  intro rounds
  induction rounds with
  | zero =>
    intro epsilon best
    rw [anytimeAux, weighted_self]
    split <;> rfl
  | succ k ih =>
    intro epsilon best
    rw [anytimeAux, weighted_self]
    split
    · rfl
    · exact ih _ _

theorem anytime_self (start : Position) (g : Grid) (rounds : Nat)
    (h : 1 ≤ rounds) : findPathAnytimeAStar rounds start start g = some [start] := by
  obtain ⟨m, rfl⟩ : ∃ m, rounds = m + 1 := ⟨rounds - 1, by omega⟩
  exact anytimeAux_self start g m 2 none

theorem bfs_self (start : Position) (g : Grid) :
    findPathBFS start start g = some [start] := by
  unfold findPathBFS
  rw [show bfsFuel g = (10 * (g.width * g.height * g.floors + 1) + 1) + 1
    from rfl]
  simp [findPathBFSAux]

theorem dfs_self (start : Position) (g : Grid) :
    findPathDFS start start g = some [start] := by
  unfold findPathDFS
  rw [show bfsFuel g = (10 * (g.width * g.height * g.floors + 1) + 1) + 1
    from rfl]
  simp [findPathDFSAux]

theorem rwC_self_succ (rho : Nat → Nat) (c : Nat) (start : Position)
    (g : Grid) (m : Nat) :
    findPathRandomWalkC rho c start start g (m + 1) = (some [start], c) := by
  simp [findPathRandomWalkC, rwAux]

theorem randomWalk_self (rho : Nat → Nat) (c : Nat) (start : Position)
    (g : Grid) (maxSteps : Nat) (h : 1 ≤ maxSteps) :
    findPathRandomWalk rho c start start g maxSteps = some [start] := by
  obtain ⟨m, rfl⟩ : ∃ m, maxSteps = m + 1 := ⟨maxSteps - 1, by omega⟩
  rw [findPathRandomWalk, rwC_self_succ]

theorem acoAnts_keep (rho : Nat → Nat) (start : Position) (g : Grid) :
    ∀ (ants c : Nat),
      acoAnts rho start start g ants c (some [start]) = (some [start], c) := by
  intro ants
  induction ants with
  | zero => intro c; rfl
  | succ k ih =>
    intro c
    rw [acoAnts, show findPathRandomWalkC rho c start start g 100 =
      (some [start], c) from rwC_self_succ rho c start g 99]
    simpa using ih c

theorem acoAnts_first (rho : Nat → Nat) (start : Position) (g : Grid)
    (a c : Nat) :
    acoAnts rho start start g (a + 1) c none = (some [start], c) := by
  rw [acoAnts, show findPathRandomWalkC rho c start start g 100 =
    (some [start], c) from rwC_self_succ rho c start g 99]
  simpa using acoAnts_keep rho start g a c

theorem acoIters_keep (rho : Nat → Nat) (start : Position) (g : Grid)
    (antCount : Nat) :
    ∀ (iters c : Nat),
      acoIters rho start start g antCount iters c (some [start]) =
        (some [start], c) := by
  intro iters
  induction iters with
  | zero => intro c; rfl
  | succ k ih =>
    intro c
    rw [acoIters, acoAnts_keep]
    exact ih c

theorem aco_self (rho : Nat → Nat) (start : Position) (g : Grid)
    (iterations antCount : Nat) (hit : 1 ≤ iterations) (hant : 1 ≤ antCount) :
    findPathACO rho start start g iterations antCount = some [start] := by
  obtain ⟨it, rfl⟩ : ∃ m, iterations = m + 1 := ⟨iterations - 1, by omega⟩
  obtain ⟨a, rfl⟩ : ∃ m, antCount = m + 1 := ⟨antCount - 1, by omega⟩
  rw [findPathACO, acoIters, acoAnts_first, acoIters_keep]

theorem gaSeed_self (rho : Nat → Nat) (start : Position) (g : Grid) :
    ∀ (n c : Nat),
      gaSeed rho start start g n c = (List.replicate n [start], c) := by
  intro n
  induction n with
  | zero => intro c; rfl
  | succ k ih =>
    intro c
    rw [gaSeed, show findPathRandomWalkC rho c start start g 100 =
      (some [start], c) from rwC_self_succ rho c start g 99, ih c]
    rfl

theorem insertStable_replicate (start : Position) (k : Nat) :
    insertStable (fun a b => decide (a.length < b.length)) [start]
      (List.replicate k [start]) = List.replicate (k + 1) [start] := by
  cases k with
  | zero => rfl
  | succ m => simp [insertStable, List.replicate]

theorem sortStable_replicate (start : Position) :
    ∀ n : Nat, sortStable (fun a b => decide (a.length < b.length))
      (List.replicate n [start]) = List.replicate n [start] := by
  intro n
  induction n with
  | zero => rfl
  | succ k ih =>
    rw [List.replicate_succ, sortStable, ih, insertStable_replicate]
    rfl

theorem getD_replicate (start : Position) (n i : Nat) (hi : i < n) :
    (List.replicate n ([start] : List Position)).getD i [] = [start] := by
  induction n generalizing i with
  | zero => omega
  | succ k ih =>
    cases i with
    | zero => rfl
    | succ j =>
      rw [List.replicate_succ]
      exact ih j (by omega)

theorem gaChild_self (rho : Nat → Nat) (sigma : Nat → Bool) (start : Position)
    (g : Grid) (n c : Nat) (hn : 1 ≤ n) :
    gaChild rho sigma start g (List.replicate n [start]) c = ([start], c + 3) := by
  have h1 : ∀ i : Nat, (List.replicate n ([start] : List Position)).getD
      (i % (List.replicate n ([start] : List Position)).length) [] = [start] := by
    intro i
    rw [List.length_replicate]
    exact getD_replicate start n _ (Nat.mod_lt _ (by omega))
  simp only [gaChild, h1]
  cases hs : sigma (c + 2) with
  | false => simp [hs, jsSliceNeg]
  | true =>
    have hwalk : findPathRandomWalkC rho (c + 3) start start g 20 =
        (some [start], c + 3) := rwC_self_succ rho (c + 3) start g 19
    simp [hs, jsSliceNeg, hwalk]

theorem gaChildren_self (rho : Nat → Nat) (sigma : Nat → Bool)
    (start : Position) (g : Grid) (n : Nat) (hn : 1 ≤ n) :
    ∀ (k c : Nat),
      (gaChildren rho sigma start g (List.replicate n [start]) k c).1 =
        List.replicate k [start] := by
  intro k
  induction k with
  | zero => intro c; rfl
  | succ m ih =>
    intro c
    rw [gaChildren, gaChild_self rho sigma start g n c hn]
    simp only [ih]
    exact (List.replicate_succ _ _).symm

theorem gaGens_self (rho : Nat → Nat) (sigma : Nat → Bool) (start : Position)
    (g : Grid) (popSize : Nat) (hpop : 1 ≤ popSize) :
    ∀ (gens : Nat) (c : Nat) (best : Option (List Position)),
      (best = none ∨ best = some [start]) → 1 ≤ gens →
      gaGens rho sigma start g popSize gens (List.replicate popSize [start])
        best c = .ok (some [start]) := by
  intro gens
  induction gens with
  | zero => intro c best _ h; omega
  | succ k ih =>
    intro c best hbest _
    obtain ⟨m, rfl⟩ : ∃ m, popSize = m + 1 := ⟨popSize - 1, by omega⟩
    have hch : (gaChildren rho sigma start g
        (List.replicate (m + 1) [start]) (m + 1 - 1) c).1 =
        List.replicate m [start] := by
      rw [Nat.add_sub_cancel]
      exact gaChildren_self rho sigma start g (m + 1) (by omega) m c
    have hfold : ([start] : List Position) :: List.replicate m [start] =
        List.replicate (m + 1) [start] := (List.replicate_succ _ _).symm
    rcases hbest with rfl | rfl
    · rw [gaGens, sortStable_replicate, List.replicate_succ]
      dsimp only []
      rw [hfold, hch, hfold, if_pos rfl]
      cases k with
      | zero => rfl
      | succ k2 => exact ih _ _ (Or.inr rfl) (by omega)
    · rw [gaGens, sortStable_replicate, List.replicate_succ]
      dsimp only []
      rw [hfold, hch, hfold, if_neg (by simp)]
      cases k with
      | zero => rfl
      | succ k2 => exact ih _ _ (Or.inr rfl) (by omega)

theorem ga_self (rho : Nat → Nat) (sigma : Nat → Bool) (start : Position)
    (g : Grid) (popSize gens : Nat) (hpop : 1 ≤ popSize) (hgens : 1 ≤ gens) :
    findPathGA rho sigma start start g popSize gens = .ok (some [start]) := by
  simp only [findPathGA, gaSeed_self]
  exact gaGens_self rho sigma start g popSize hpop gens 0 none (Or.inl rfl)
    hgens

/-- C5 (amended): for A*, BFS, DFS, Greedy Best-First, Weighted A*, Anytime
A*, Random Walk, ACO and the Genetic Algorithm — every algorithm of the
family except Dijkstra (whose falsy-zero distance read makes it return
absent), Bidirectional (which returns `[start, n]` or absent) and Swarm
(which tests the goal only after stepping) — a call with start == goal on a
traversable cell returns exactly `[start]`, for every random draw stream and
with at least one round/step/iteration/seed/generation as the default
parameters provide. -/
theorem start_eq_goal_amended (start : Position) (g : Grid)
    (htrav : g.cellAt start ∈ traversableKinds) (rho : Nat → Nat)
    (sigma : Nat → Bool)
    (c rounds maxSteps iterations antCount popSize gens : Nat)
    (hrounds : 1 ≤ rounds) (hsteps : 1 ≤ maxSteps) (hit : 1 ≤ iterations)
    (hant : 1 ≤ antCount) (hpop : 1 ≤ popSize) (hgens : 1 ≤ gens) :
    findPathAStar start start g = some [start] ∧
    findPathBFS start start g = some [start] ∧
    findPathDFS start start g = some [start] ∧
    findPathGreedyBestFirst start start g = some [start] ∧
    (∀ weight : Rat, findPathAStarWeighted start start g weight = some [start]) ∧
    findPathAnytimeAStar rounds start start g = some [start] ∧
    findPathRandomWalk rho c start start g maxSteps = some [start] ∧
    findPathACO rho start start g iterations antCount = some [start] ∧
    findPathGA rho sigma start start g popSize gens = .ok (some [start]) :=
  ⟨astar_self start g, bfs_self start g, dfs_self start g, greedy_self start g,
   fun weight => weighted_self start g weight,
   anytime_self start g rounds hrounds,
   randomWalk_self rho c start g maxSteps hsteps,
   aco_self rho start g iterations antCount hit hant,
   ga_self rho sigma start g popSize gens hpop hgens⟩

/-- Witness for the amended C5 at the corridor grid with the source default
parameter values. -/
theorem start_eq_goal_amended_witness :
    findPathAStar posA posA gridCorridor = some [posA] ∧
    findPathBFS posA posA gridCorridor = some [posA] ∧
    findPathDFS posA posA gridCorridor = some [posA] ∧
    findPathGreedyBestFirst posA posA gridCorridor = some [posA] ∧
    (∀ weight : Rat,
      findPathAStarWeighted posA posA gridCorridor weight = some [posA]) ∧
    findPathAnytimeAStar 1 posA posA gridCorridor = some [posA] ∧
    findPathRandomWalk rhoZero 0 posA posA gridCorridor 100 = some [posA] ∧
    findPathACO rhoZero posA posA gridCorridor 10 10 = some [posA] ∧
    findPathGA rhoZero sigmaFalse posA posA gridCorridor 10 10 =
      .ok (some [posA]) :=
  start_eq_goal_amended posA gridCorridor (by decide) rhoZero sigmaFalse
    0 1 100 10 10 10 10 (by decide) (by decide) (by decide) (by decide)
    (by decide) (by decide)

/-! ### C8: idempotence of repeated calls -/

/-- C8 (failing case): two successive `findPathRandomWalk` calls with
identical (start, goal, grid) and default step cap return different paths:
the first call consumes one `Math.random()` draw and returns the diagonal
two-cell path, and the second call, starting from the draw counter where the
first left off, returns a four-cell path. -/
theorem idempotence_counterexample :
    findPathRandomWalkC rhoSplit 0 posA blockD gridBlock 100 =
      (some [posA, blockD], 1) ∧
    findPathRandomWalkC rhoSplit 1 posA blockD gridBlock 100 =
      (some [posA, blockB, posB, blockD], 4) ∧
    (findPathRandomWalkC rhoSplit 0 posA blockD gridBlock 100).1 ≠
      (findPathRandomWalkC rhoSplit 1 posA blockD gridBlock 100).1 := by
  refine ⟨by decide, by decide, by decide⟩

/-- C8 (amended): every algorithm of the family is a pure function of its
inputs: the grid is never mutated, the deterministic algorithms return equal
paths on repeated calls with identical (start, goal, grid), and the
randomized algorithms and the wall-clock-bounded Anytime A* return equal
paths whenever their hidden inputs — the random draw streams, the draw
counter and the allowed clock rounds — also coincide. -/
theorem idempotence_amended (start goal : Position) (g : Grid)
    (rho1 rho2 : Nat → Nat) (sigma1 sigma2 : Nat → Bool) (c1 c2 : Nat)
    (rounds1 rounds2 maxSteps iterations antCount popSize gens swarmSize
      iters : Nat) (weight : Rat)
    (hrho : rho1 = rho2) (hsigma : sigma1 = sigma2) (hc : c1 = c2)
    (hrounds : rounds1 = rounds2) :
    findPathAStar start goal g = findPathAStar start goal g ∧
    findPathDijkstra start goal g = findPathDijkstra start goal g ∧
    findPathBFS start goal g = findPathBFS start goal g ∧
    findPathDFS start goal g = findPathDFS start goal g ∧
    findPathGreedyBestFirst start goal g =
      findPathGreedyBestFirst start goal g ∧
    findPathBidirectional start goal g = findPathBidirectional start goal g ∧
    findPathAStarWeighted start goal g weight =
      findPathAStarWeighted start goal g weight ∧
    findPathAnytimeAStar rounds1 start goal g =
      findPathAnytimeAStar rounds2 start goal g ∧
    findPathRandomWalk rho1 c1 start goal g maxSteps =
      findPathRandomWalk rho2 c2 start goal g maxSteps ∧
    findPathACO rho1 start goal g iterations antCount =
      findPathACO rho2 start goal g iterations antCount ∧
    findPathGA rho1 sigma1 start goal g popSize gens =
      findPathGA rho2 sigma2 start goal g popSize gens ∧
    findPathSwarm rho1 start goal g swarmSize iters =
      findPathSwarm rho2 start goal g swarmSize iters := by
  subst hrho hsigma hc hrounds
  exact ⟨rfl, rfl, rfl, rfl, rfl, rfl, rfl, rfl, rfl, rfl, rfl, rfl⟩

/-- Witness for the amended C8 at concrete inputs. -/
theorem idempotence_amended_witness :
    findPathAStar posA posB gridCorridor = findPathAStar posA posB gridCorridor ∧
    findPathDijkstra posA posB gridCorridor =
      findPathDijkstra posA posB gridCorridor ∧
    findPathBFS posA posB gridCorridor = findPathBFS posA posB gridCorridor ∧
    findPathDFS posA posB gridCorridor = findPathDFS posA posB gridCorridor ∧
    findPathGreedyBestFirst posA posB gridCorridor =
      findPathGreedyBestFirst posA posB gridCorridor ∧
    findPathBidirectional posA posB gridCorridor =
      findPathBidirectional posA posB gridCorridor ∧
    findPathAStarWeighted posA posB gridCorridor 1 =
      findPathAStarWeighted posA posB gridCorridor 1 ∧
    findPathAnytimeAStar 1 posA posB gridCorridor =
      findPathAnytimeAStar 1 posA posB gridCorridor ∧
    findPathRandomWalk rhoZero 0 posA posB gridCorridor 100 =
      findPathRandomWalk rhoZero 0 posA posB gridCorridor 100 ∧
    findPathACO rhoZero posA posB gridCorridor 10 10 =
      findPathACO rhoZero posA posB gridCorridor 10 10 ∧
    findPathGA rhoZero sigmaFalse posA posB gridCorridor 10 10 =
      findPathGA rhoZero sigmaFalse posA posB gridCorridor 10 10 ∧
    findPathSwarm rhoZero posA posB gridCorridor 10 10 =
      findPathSwarm rhoZero posA posB gridCorridor 10 10 :=
  idempotence_amended posA posB gridCorridor rhoZero rhoZero sigmaFalse
    sigmaFalse 0 0 1 1 100 10 10 10 10 10 10 1 rfl rfl rfl rfl

/-! ### C7: BFS shortest paths -/

theorem ifNoneSome {c : Prop} [Decidable c] {α : Type} {a b : α} :
    ((if c then none else some a) = some b) ↔ (¬c ∧ a = b) := by
  split <;> simp_all

theorem self_not_mem_getNeighbors (p : Position) (g : Grid) :
    p ∉ getNeighbors p g := by
  intro h
  unfold getNeighbors at h
  rw [List.mem_append] at h
  rcases h with h | h
  · rw [mem_horizontal_neighbors] at h
    exact h.2.2.2.1 ⟨rfl, rfl⟩
  · by_cases hs : g.cell p.x p.y p.floor = CellType.STAIRS
    · rw [if_pos hs] at h
      simp only [List.mem_filterMap, List.mem_cons, List.not_mem_nil,
        or_false, ifSomeNone] at h
      obtain ⟨nf, hnf, _, heq⟩ := h
      have hfl : nf = p.floor := congrArg Position.floor heq
      rcases hnf with rfl | rfl <;> omega
    · rw [if_neg hs] at h
      exact absurd h (List.not_mem_nil p)

theorem IsWalkFromTo.length_pos {g : Grid} {w : List Position}
    {a b : Position} (h : IsWalkFromTo g w a b) : 0 < w.length :=
  List.length_pos.mpr h.1

theorem IsWalkFromTo.get_zero {g : Grid} {w : List Position} {a b : Position}
    (h : IsWalkFromTo g w a b) : w.get ⟨0, h.length_pos⟩ = a := by
  obtain ⟨hne, hhead, _, _⟩ := h
  cases w with
  | nil => exact absurd rfl hne
  | cons x t => exact Option.some.inj hhead

theorem IsWalkFromTo.get_last {g : Grid} {w : List Position} {a b : Position}
    (h : IsWalkFromTo g w a b) :
    w.get ⟨w.length - 1, by have := h.length_pos; omega⟩ = b := by
  obtain ⟨hne, _, hlast, _⟩ := h
  rw [List.getLast?_eq_getLast_of_ne_nil hne] at hlast
  have h2 : w.getLast hne = b := Option.some.inj hlast
  exact (List.getLast_eq_get w hne).symm.trans h2

theorem walk_append {g : Grid} {w : List Position} {a b : Position}
    (h : IsWalkFromTo g w a b) (n : Position) (hadj : Adj g b n) :
    IsWalkFromTo g (w ++ [n]) a n := by
  obtain ⟨hne, hhead, hlast, hchain⟩ := h
  refine ⟨by simp, ?_, List.getLast?_concat w, ?_⟩
  · rw [List.head?_append_of_ne_nil w hne]
    exact hhead
  · rw [List.chain'_append]
    refine ⟨hchain, List.chain'_singleton n, ?_⟩
    intro x hx y hy
    rw [hlast] at hx
    cases hx
    cases hy
    exact hadj

theorem bfsInv_walk_cover {g : Grid} {start goal : Position}
    {queue : List (Position × List Position)} {visited : List Position}
    {D : Position → Nat} (inv : BfsInv g start goal queue visited D)
    (w : List Position) (hw : IsWalkFromTo g w start goal) :
    ∃ e ∈ queue, e.2.length ≤ w.length := by
  have hpos : 0 < w.length := hw.length_pos
  have key : ∀ i, ∀ hi : i < w.length,
      (w.get ⟨i, hi⟩ ∈ visited ∧ D (w.get ⟨i, hi⟩) ≤ i + 1) ∨
      (∃ e ∈ queue, e.2.length ≤ i + 1) := by
    intro i
    induction i with
    | zero =>
      intro hi
      have h0 : w.get ⟨0, hi⟩ = start := hw.get_zero
      rw [h0]
      rcases inv.start_cov with ⟨hv, hD⟩ | ⟨e, he, _, hlen⟩
      · exact Or.inl ⟨hv, by omega⟩
      · exact Or.inr ⟨e, he, by omega⟩
    | succ j ihj =>
      intro hi
      have hj : j < w.length := by omega
      rcases ihj hj with ⟨hv, hD⟩ | ⟨e, he, hlen⟩
      · have hadj : Adj g (w.get ⟨j, hj⟩) (w.get ⟨j + 1, hi⟩) :=
          List.chain'_iff_get.mp hw.2.2.2 j (by omega)
        rcases inv.visited_closed _ hv _ hadj with ⟨hv2, hD2⟩ |
          ⟨e, he, _, hlen⟩
        · exact Or.inl ⟨hv2, by omega⟩
        · exact Or.inr ⟨e, he, by omega⟩
      · exact Or.inr ⟨e, he, by omega⟩
  rcases key (w.length - 1) (by omega) with ⟨hv, _⟩ | ⟨e, he, hlen⟩
  · have hlast : w.get ⟨w.length - 1, by omega⟩ = goal := hw.get_last
    rw [hlast] at hv
    exact absurd hv inv.goal_not_visited
  · exact ⟨e, he, by omega⟩

theorem pairwise_le_of_const_len {l : List (Position × List Position)}
    {L : Nat} (h : ∀ e ∈ l, e.2.length = L) :
    l.Pairwise (fun e1 e2 => e1.2.length ≤ e2.2.length) := by
  induction l with
  | nil => exact List.Pairwise.nil
  | cons a t ih =>
    rw [List.pairwise_cons]
    refine ⟨?_, ih (fun e he => h e (List.mem_cons_of_mem _ he))⟩
    intro e he
    rw [h a (List.mem_cons_self _ _), h e (List.mem_cons_of_mem _ he)]

/-- Dequeuing an already-visited entry preserves the invariant. -/
theorem bfsInv_skip {g : Grid} {start goal pos : Position}
    {path : List Position} {rest : List (Position × List Position)}
    {visited : List Position} {D : Position → Nat}
    (inv : BfsInv g start goal ((pos, path) :: rest) visited D)
    (hvis : pos ∈ visited) :
    BfsInv g start goal rest visited D := by
  have hfmin : ∀ e ∈ (pos, path) :: rest, path.length ≤ e.2.length := by
    intro e he
    rcases List.mem_cons.mp he with rfl | he
    · exact le_refl _
    · exact (List.pairwise_cons.mp inv.sorted).1 e he
  refine ⟨?_, ?_, ?_, ?_, ?_, ?_, inv.goal_not_visited⟩
  · intro e he
    exact inv.entries e (List.mem_cons_of_mem _ he)
  · exact (List.pairwise_cons.mp inv.sorted).2
  · intro e1 he1 e2 he2
    exact inv.twoLevel e1 (List.mem_cons_of_mem _ he1) e2
      (List.mem_cons_of_mem _ he2)
  · intro v hv e he
    exact inv.visited_le v hv e (List.mem_cons_of_mem _ he)
  · intro v hv u hu
    rcases inv.visited_closed v hv u hu with h | ⟨e, he, he1, helen⟩
    · exact Or.inl h
    · rcases List.mem_cons.mp he with rfl | he2
      · left
        have hDu := inv.visited_le u (he1 ▸ hvis) (pos, path)
          (List.mem_cons_self _ _)
        exact ⟨he1 ▸ hvis, le_trans hDu helen⟩
      · exact Or.inr ⟨e, he2, he1, helen⟩
  · rcases inv.start_cov with hL | ⟨e, he, he1, helen⟩
    · exact Or.inl hL
    · rcases List.mem_cons.mp he with rfl | he2
      · left
        have hDs := inv.visited_le start (he1 ▸ hvis) (pos, path)
          (List.mem_cons_self _ _)
        exact ⟨he1 ▸ hvis, le_trans hDs helen⟩
      · exact Or.inr ⟨e, he2, he1, helen⟩

/-- Expanding a fresh entry preserves the invariant. -/
theorem bfsInv_expand {g : Grid} {start goal pos : Position}
    {path : List Position} {rest : List (Position × List Position)}
    {visited : List Position} {D : Position → Nat}
    (inv : BfsInv g start goal ((pos, path) :: rest) visited D)
    (hvis : pos ∉ visited) (hgoal : pos ≠ goal) :
    BfsInv g start goal
      (rest ++ (getNeighbors pos g).filterMap (fun neighbor =>
        if neighbor ∈ pos :: visited then none
        else some (neighbor, path ++ [neighbor])))
      (pos :: visited)
      (fun u => if u = pos then path.length else D u) := by
  set queueAdd := (getNeighbors pos g).filterMap (fun neighbor =>
    if neighbor ∈ pos :: visited then none
    else some (neighbor, path ++ [neighbor])) with hqadd
  have hfront : IsWalkFromTo g path start pos :=
    inv.entries (pos, path) (List.mem_cons_self _ _)
  have hfmin : ∀ e ∈ (pos, path) :: rest, path.length ≤ e.2.length := by
    intro e he
    rcases List.mem_cons.mp he with rfl | he
    · exact le_refl _
    · exact (List.pairwise_cons.mp inv.sorted).1 e he
  have hmemAdd : ∀ q ∈ queueAdd, q.1 ∈ getNeighbors pos g ∧
      q.1 ∉ pos :: visited ∧ q.2 = path ++ [q.1] := by
    intro q hq
    rw [hqadd, List.mem_filterMap] at hq
    obtain ⟨n, hn, hq⟩ := hq
    rw [ifNoneSome] at hq
    obtain ⟨hnv, rfl⟩ := hq
    exact ⟨hn, hnv, rfl⟩
  have haddlen : ∀ q ∈ queueAdd, q.2.length = path.length + 1 := by
    intro q hq
    rw [(hmemAdd q hq).2.2, List.length_append, List.length_singleton]
  have hinAdd : ∀ u, u ∈ getNeighbors pos g → u ∉ pos :: visited →
      (u, path ++ [u]) ∈ queueAdd := by
    intro u hu hnv
    rw [hqadd, List.mem_filterMap]
    exact ⟨u, hu, ifNoneSome.mpr ⟨hnv, rfl⟩⟩
  refine ⟨?_, ?_, ?_, ?_, ?_, ?_, ?_⟩
  · intro e he
    rcases List.mem_append.mp he with he | he
    · exact inv.entries e (List.mem_cons_of_mem _ he)
    · obtain ⟨hn, _, h2⟩ := hmemAdd e he
      rw [h2]
      exact walk_append hfront e.1 hn
  · rw [List.pairwise_append]
    refine ⟨(List.pairwise_cons.mp inv.sorted).2,
      pairwise_le_of_const_len haddlen, ?_⟩
    intro e1 he1 e2 he2
    rw [haddlen e2 he2]
    have h2 := inv.twoLevel (pos, path) (List.mem_cons_self _ _) e1
      (List.mem_cons_of_mem _ he1)
    dsimp only at h2
    omega
  · intro e1 he1 e2 he2
    rcases List.mem_append.mp he1 with he1 | he1 <;>
      rcases List.mem_append.mp he2 with he2 | he2
    · exact inv.twoLevel e1 (List.mem_cons_of_mem _ he1) e2
        (List.mem_cons_of_mem _ he2)
    · rw [haddlen e2 he2]
      have h2 := hfmin e1 (List.mem_cons_of_mem _ he1)
      omega
    · rw [haddlen e1 he1]
      have h2 := inv.twoLevel (pos, path) (List.mem_cons_self _ _) e2
        (List.mem_cons_of_mem _ he2)
      dsimp only at h2
      omega
    · rw [haddlen e1 he1, haddlen e2 he2]
      omega
  · intro v hv e he
    rcases List.mem_cons.mp hv with rfl | hv
    · rw [if_pos rfl]
      rcases List.mem_append.mp he with he | he
      · exact hfmin e (List.mem_cons_of_mem _ he)
      · rw [haddlen e he]
        omega
    · have hne : v ≠ pos := fun h => hvis (h ▸ hv)
      rw [if_neg hne]
      rcases List.mem_append.mp he with he | he
      · exact inv.visited_le v hv e (List.mem_cons_of_mem _ he)
      · rw [haddlen e he]
        have h2 := inv.visited_le v hv (pos, path) (List.mem_cons_self _ _)
        dsimp only at h2
        omega
  · intro v hv u hu
    rcases List.mem_cons.mp hv with rfl | hv
    · by_cases huv : u ∈ v :: visited
      · rcases List.mem_cons.mp huv with rfl | huv
        · exact absurd hu (self_not_mem_getNeighbors _ g)
        · have hune : u ≠ v := fun h => hvis (h ▸ huv)
          refine Or.inl ⟨List.mem_cons_of_mem _ huv, ?_⟩
          rw [if_neg hune, if_pos rfl]
          have h2 := inv.visited_le u huv (v, path) (List.mem_cons_self _ _)
          dsimp only at h2
          omega
      · right
        refine ⟨(u, path ++ [u]), List.mem_append_right _ (hinAdd u hu huv),
          rfl, ?_⟩
        rw [if_pos rfl]
        simp
    · have hvne : v ≠ pos := fun h => hvis (h ▸ hv)
      rcases inv.visited_closed v hv u hu with ⟨hu2, hD2⟩ |
        ⟨e, he, he1, helen⟩
      · have hune : u ≠ pos := fun h => hvis (h ▸ hu2)
        refine Or.inl ⟨List.mem_cons_of_mem _ hu2, ?_⟩
        rw [if_neg hune, if_neg hvne]
        exact hD2
      · rcases List.mem_cons.mp he with heq | he2
        · left
          have hupos : u = pos := by rw [heq] at he1; exact he1.symm
          constructor
          · rw [hupos]
            exact List.mem_cons_self _ _
          · rw [hupos, if_pos rfl, if_neg hvne]
            rw [heq] at helen
            dsimp only at helen
            exact helen
        · refine Or.inr ⟨e, List.mem_append_left _ he2, he1, ?_⟩
          rw [if_neg hvne]
          exact helen
  · rcases inv.start_cov with ⟨hs, hD⟩ | ⟨e, he, he1, helen⟩
    · have hsne : start ≠ pos := fun h => hvis (h ▸ hs)
      refine Or.inl ⟨List.mem_cons_of_mem _ hs, ?_⟩
      rw [if_neg hsne]
      exact hD
    · rcases List.mem_cons.mp he with heq | he2
      · left
        have hspos : start = pos := by rw [heq] at he1; exact he1.symm
        constructor
        · rw [hspos]
          exact List.mem_cons_self _ _
        · rw [hspos, if_pos rfl]
          rw [heq] at helen
          dsimp only at helen
          exact helen
      · exact Or.inr ⟨e, List.mem_append_left _ he2, he1, helen⟩
  · rw [List.mem_cons]
    rintro (h | h)
    · exact hgoal h.symm
    · exact inv.goal_not_visited h

/-- The invariant holds at the initial queue. -/
theorem bfsInv_init (g : Grid) (start goal : Position) :
    BfsInv g start goal [(start, [start])] [] (fun _ => 0) := by
  refine ⟨?_, List.pairwise_singleton _ _, ?_, ?_, ?_, ?_, List.not_mem_nil _⟩
  · intro e he
    rcases List.mem_cons.mp he with rfl | he
    · exact ⟨by simp, rfl, rfl, List.chain'_singleton start⟩
    · exact absurd he (List.not_mem_nil e)
  · intro e1 he1 e2 he2
    rcases List.mem_cons.mp he1 with rfl | he1
    · rcases List.mem_cons.mp he2 with rfl | he2
      · simp
      · exact absurd he2 (List.not_mem_nil e2)
    · exact absurd he1 (List.not_mem_nil e1)
  · intro v hv
    exact absurd hv (List.not_mem_nil v)
  · intro v hv
    exact absurd hv (List.not_mem_nil v)
  · exact Or.inr ⟨(start, [start]), List.mem_cons_self _ _, rfl, le_refl 1⟩

/-- The BFS loop, under the invariant, returns only shortest walks. -/
theorem bfsAux_shortest (g : Grid) (start goal : Position) :
    ∀ (fuel : Nat) (queue : List (Position × List Position))
      (visited : List Position) (D : Position → Nat),
      BfsInv g start goal queue visited D →
      ∀ p : List Position,
        findPathBFSAux goal g fuel queue visited = some p →
        IsWalkFromTo g p start goal ∧
        ∀ w, IsWalkFromTo g w start goal → p.length ≤ w.length := by
  intro fuel
  induction fuel with
  | zero =>
    intro queue visited D inv p h
    rw [findPathBFSAux] at h
    cases h
  | succ f ih =>
    intro queue visited D inv p h
    rcases queue with _ | ⟨⟨pos, path⟩, rest⟩
    · rw [findPathBFSAux] at h
      cases h
    · rw [findPathBFSAux] at h
      by_cases hgoal : pos = goal
      · rw [if_pos hgoal] at h
        cases h
        constructor
        · exact hgoal ▸ inv.entries (pos, p) (List.mem_cons_self _ _)
        · intro w hw
          obtain ⟨e, he, hle⟩ := bfsInv_walk_cover inv w hw
          have hmin : p.length ≤ e.2.length := by
            rcases List.mem_cons.mp he with rfl | he
            · exact le_refl _
            · exact (List.pairwise_cons.mp inv.sorted).1 e he
          omega
      · rw [if_neg hgoal] at h
        by_cases hvis : pos ∈ visited
        · rw [if_pos hvis] at h
          exact ih rest visited D (bfsInv_skip inv hvis) p h
        · rw [if_neg hvis] at h
          exact ih _ _ _ (bfsInv_expand inv hvis hgoal) p h

/-- C7: whenever BFS returns a path, that path is a legal start-to-goal walk
in the neighbor graph and its number of steps is minimal among all
start-to-goal walks (all edges counted as weight 1). -/
theorem findPathBFS_shortest (g : Grid) (start goal : Position)
    (p : List Position) (h : findPathBFS start goal g = some p) :
    IsWalkFromTo g p start goal ∧
    ∀ w, IsWalkFromTo g w start goal → p.length ≤ w.length :=
  bfsAux_shortest g start goal (bfsFuel g) [(start, [start])] []
    (fun _ => 0) (bfsInv_init g start goal) p h

/-- Witness for C7: on the corridor grid BFS finds the two-cell path, which
is a legal walk of minimal length. -/
theorem findPathBFS_shortest_witness :
    IsWalkFromTo gridCorridor [posA, posB] posA posB ∧
    ∀ w, IsWalkFromTo gridCorridor w posA posB →
      ([posA, posB] : List Position).length ≤ w.length :=
  findPathBFS_shortest gridCorridor posA posB [posA, posB] (by decide)

end Evac
